import Mathlib

/-!
Verification of the `spherical-cow` advancing-front sphere-packing library
(`src/lib.rs`) against its natural-language specification.

The source operates on `f32` values through `nalgebra`; the shallow embedding
idealises the floating-point arithmetic as exact real arithmetic (`ℝ`), with
`nalgebra::norm` becoming `Real.sqrt` of the sum of squared components.  Rust
`bool`-valued tests become decidable propositions (classically decided), Rust
iterator pipelines become explicit list recursions, the hidden thread-local
RNG of `pack_spheres` becomes a pair of explicit index streams, and the
potentially diverging `'outer` loop is given explicit fuel, returning
`Option` (`none` = no result: fuel exhausted or the seed assertion panicked).

The `shapes` and `util` modules of the repository are not part of the given
source tree; the entities taken from them (`Sphere`, `Sphere::overlaps`,
`Sphere::volume`, `Container`) are modelled from the specification and are
marked as such in their doc comments.
-/

open Classical

namespace SphericalCow

/-- Three-dimensional real vector, standing for `nalgebra`'s
`Vector3<f32>` / `Point3<f32>` coordinate triples. -/
@[ext]
structure Vec3 where
  x : ℝ
  y : ℝ
  z : ℝ

namespace Vec3

instance : Inhabited Vec3 := ⟨⟨0, 0, 0⟩⟩

instance : Add Vec3 := ⟨fun a b => ⟨a.x + b.x, a.y + b.y, a.z + b.z⟩⟩

instance : Sub Vec3 := ⟨fun a b => ⟨a.x - b.x, a.y - b.y, a.z - b.z⟩⟩

instance : Neg Vec3 := ⟨fun a => ⟨-a.x, -a.y, -a.z⟩⟩

instance : SMul ℝ Vec3 := ⟨fun c a => ⟨c * a.x, c * a.y, c * a.z⟩⟩

/-- Componentwise division by a scalar, as in `vector_u / norm(&vector_u)`. -/
noncomputable instance : HDiv Vec3 ℝ Vec3 := ⟨fun a c => ⟨a.x / c, a.y / c, a.z / c⟩⟩

instance : Zero Vec3 := ⟨⟨0, 0, 0⟩⟩

/-- Euclidean dot product (`nalgebra::dot`). -/
def dot (a b : Vec3) : ℝ := a.x * b.x + a.y * b.y + a.z * b.z

/-- Cross product (`Matrix::cross`). -/
def cross (a b : Vec3) : Vec3 :=
  ⟨a.y * b.z - a.z * b.y, a.z * b.x - a.x * b.z, a.x * b.y - a.y * b.x⟩

/-- Squared Euclidean norm. -/
def normSq (a : Vec3) : ℝ := a.x ^ 2 + a.y ^ 2 + a.z ^ 2

/-- Euclidean norm (`nalgebra::norm`), the square root of `normSq`. -/
noncomputable def norm (a : Vec3) : ℝ := Real.sqrt a.normSq

/-- Euclidean distance between two points (`nalgebra::distance`). -/
noncomputable def dist (a b : Vec3) : ℝ := norm (a - b)

/-- Component of a vector selected by an index, for `nalgebra`'s `v[i]`. -/
def nth (a : Vec3) : Fin 3 → ℝ
  | 0 => a.x
  | 1 => a.y
  | 2 => a.z

end Vec3

/-- Modelled from the spec: `Sphere` (module `shapes`, not in the given source
tree) — immutable value with a 3-D `center` and a `radius`; equality is
structural. -/
@[ext]
structure Sphere where
  center : Vec3
  radius : ℝ

instance : Inhabited Sphere := ⟨⟨default, 0⟩⟩

namespace Sphere

/-- `Sphere::new` — plain constructor. -/
def new (center : Vec3) (radius : ℝ) : Sphere := ⟨center, radius⟩

/-- Modelled from the spec: two spheres overlap iff
`distance(centerA, centerB) < radiusA + radiusB` (strict); this is
`Sphere::overlaps` of the `shapes` module, not in the given source tree. -/
def overlaps (a b : Sphere) : Prop :=
  Vec3.dist a.center b.center < a.radius + b.radius

/-- Modelled from the spec: `Sphere::volume` (module `shapes`, not in the
given source tree) — the Euclidean ball volume `4/3·π·r³`. -/
noncomputable def volume (s : Sphere) : ℝ :=
  4 / 3 * Real.pi * s.radius ^ 3

end Sphere

/-- The `Container` trait: `contains` and `volume`.  The Rust `bool` returned
by `contains` is modelled as a (classically decided) proposition. -/
structure Container where
  contains : Sphere → Prop
  volume : ℝ

/-- `Iterator::filter` over a list with a propositional predicate. -/
noncomputable def filterP {α : Type} (p : α → Prop) : List α → List α
  | [] => []
  | a :: t => if p a then a :: filterP p t else filterP p t

/-- First element satisfying a predicate (the first iteration of a Rust `for`
loop that hits its early-exit branch). -/
noncomputable def findP {α : Type} (p : α → Prop) : List α → Option α
  | [] => none
  | a :: t => if p a then some a else findP p t

/-!
## `PackedVolume` and the contact-graph analysis (lib.rs lines 86–206)
-/

/-- `PackedVolume`: a set of packed spheres together with the container.  The
Rust type parameter `C: Container` becomes a plain `Container` field. -/
structure PackedVolume where
  spheres : List Sphere
  container : Container

namespace PackedVolume

/-- `PackedVolume::from_vec`: builds a `PackedVolume` from a pre-calculated
cluster of spheres (lib.rs lines 111–116). -/
def from_vec (spheres : List Sphere) (container : Container) : PackedVolume :=
  { spheres := spheres, container := container }

/-- `PackedVolume::volume_fraction` (lib.rs lines 125–128). -/
noncomputable def volume_fraction (pv : PackedVolume) : ℝ :=
  (pv.spheres.map Sphere.volume).sum / pv.container.volume

/-- `PackedVolume::void_ratio` (lib.rs lines 132–136). -/
noncomputable def void_ratio (pv : PackedVolume) : ℝ :=
  (pv.container.volume - (pv.spheres.map Sphere.volume).sum) /
    (pv.spheres.map Sphere.volume).sum

/-- The contact predicate used by `sphere_contacts` and
`sphere_contacts_count`: `|distance − (r₁ + r₂)| < 0.001`. -/
noncomputable def contactPred (center : Vec3) (radius : ℝ) (sphere : Sphere) : Prop :=
  |Vec3.dist center sphere.center - (radius + sphere.radius)| < 0.001

/-- `PackedVolume::sphere_contacts` (lib.rs lines 181–192): all spheres of
the packing satisfying the contact predicate against the sphere at the chosen
index. -/
noncomputable def sphere_contacts (pv : PackedVolume) (sphere_idx : ℕ) : List Sphere :=
  let center := (pv.spheres.getD sphere_idx default).center
  let radius := (pv.spheres.getD sphere_idx default).radius
  filterP (contactPred center radius) pv.spheres

/-- `PackedVolume::sphere_contacts_count` (lib.rs lines 195–205). -/
noncomputable def sphere_contacts_count (pv : PackedVolume) (sphere_idx : ℕ) : ℕ :=
  let center := (pv.spheres.getD sphere_idx default).center
  let radius := (pv.spheres.getD sphere_idx default).radius
  (filterP (contactPred center radius) pv.spheres).length

/-- `PackedVolume::coordination_number` (lib.rs lines 143–150). -/
noncomputable def coordination_number (pv : PackedVolume) : ℝ :=
  ((∑ idx ∈ Finset.range pv.spheres.length,
      pv.sphere_contacts_count idx : ℕ) : ℝ) / (pv.spheres.length : ℝ)

/-- `PackedVolume::fabric_tensor` (lib.rs lines 155–178).  Note: as in the
source, the per-contact direction `n_pc` is the normalised *cross product* of
the two center position vectors (`Matrix::cross(&center, &c.center.coords)`),
not of their difference. -/
noncomputable def fabric_tensor (pv : PackedVolume) : Matrix (Fin 3) (Fin 3) ℝ :=
  Matrix.of fun i j =>
    1 / (pv.spheres.length : ℝ) *
      ∑ idx ∈ Finset.range pv.spheres.length,
        (((pv.sphere_contacts idx).map (fun c =>
            let vec_n_pc := Vec3.cross (pv.spheres.getD idx default).center c.center
            let n_pc := vec_n_pc / vec_n_pc.norm
            n_pc.nth i * n_pc.nth j)).sum) /
          ((pv.sphere_contacts idx).length : ℝ)

end PackedVolume

/-!
## Pair enumerator (lib.rs lines 427–448)
-/

/-- `pairs`: all possible pairs of a set of values, transcribed from the
source: a special case returning `[(set[0], set[1])]` for two elements, and
otherwise, for `n > 2`, for each `k` the elements of `set[k+1..n]` zipped
against the repeated `set[k]`. -/
def pairs (set : List Sphere) : List (Sphere × Sphere) :=
  let n := set.length
  if n = 2 then
    [(set.getD 0 default, set.getD 1 default)]
  else if 2 < n then
    (List.range (n - 1)).flatMap
      (fun k => (set.drop (k + 1)).map (fun s => (s, set.getD k default)))
  else
    []

/-!
## Tangent-sphere solver `identify_f` (lib.rs lines 330–424)

The local `let` bindings of the source function are lifted to top-level
definitions (keeping the source's names) so that theorems can speak about
them individually.
-/

/-- `vector_u = s_1.center - s_2.center`. -/
def vector_u (s_1 s_2 : Sphere) : Vec3 := s_1.center - s_2.center

/-- `unitvector_u = vector_u / norm(vector_u)`. -/
noncomputable def unitvector_u (s_1 s_2 : Sphere) : Vec3 :=
  vector_u s_1 s_2 / (vector_u s_1 s_2).norm

/-- `vector_v = s_1.center - s_3.center`. -/
def vector_v (s_1 s_3 : Sphere) : Vec3 := s_1.center - s_3.center

/-- `unitvector_v = vector_v / norm(vector_v)`. -/
noncomputable def unitvector_v (s_1 s_3 : Sphere) : Vec3 :=
  vector_v s_1 s_3 / (vector_v s_1 s_3).norm

/-- `cross_uv = cross(vector_u, vector_v)`. -/
def cross_uv (s_1 s_2 s_3 : Sphere) : Vec3 :=
  Vec3.cross (vector_u s_1 s_2) (vector_v s_1 s_3)

/-- `unitvector_t = cross_uv / norm(cross_uv)`. -/
noncomputable def unitvector_t (s_1 s_2 s_3 : Sphere) : Vec3 :=
  cross_uv s_1 s_2 s_3 / (cross_uv s_1 s_2 s_3).norm

/-- `vector_w = -2 * s_1.center.coords`. -/
def vector_w (s_1 : Sphere) : Vec3 := (-2 : ℝ) • s_1.center

/-- `distance_14 = s_1.radius + radius`, and similarly `24`, `34`. -/
def distance_14 (s_1 : Sphere) (radius : ℝ) : ℝ := s_1.radius + radius

/-- See `distance_14`. -/
def distance_24 (s_2 : Sphere) (radius : ℝ) : ℝ := s_2.radius + radius

/-- See `distance_14`. -/
def distance_34 (s_3 : Sphere) (radius : ℝ) : ℝ := s_3.radius + radius

/-- `distance_a` of `identify_f` (lib.rs lines 369–373). -/
noncomputable def distance_a (s_1 s_2 : Sphere) (radius : ℝ) : ℝ :=
  (distance_24 s_2 radius ^ 2 - distance_14 s_1 radius ^ 2 + s_1.center.x ^ 2 +
      s_1.center.y ^ 2 + s_1.center.z ^ 2 - s_2.center.x ^ 2 -
      s_2.center.y ^ 2 - s_2.center.z ^ 2) /
    (2 * (vector_u s_1 s_2).norm)

/-- `distance_b` of `identify_f` (lib.rs lines 374–378). -/
noncomputable def distance_b (s_1 s_3 : Sphere) (radius : ℝ) : ℝ :=
  (distance_34 s_3 radius ^ 2 - distance_14 s_1 radius ^ 2 + s_1.center.x ^ 2 +
      s_1.center.y ^ 2 + s_1.center.z ^ 2 - s_3.center.x ^ 2 -
      s_3.center.y ^ 2 - s_3.center.z ^ 2) /
    (2 * (vector_v s_1 s_3).norm)

/-- `distance_c` of `identify_f` (lib.rs lines 379–380). -/
def distance_c (s_1 : Sphere) (radius : ℝ) : ℝ :=
  distance_14 s_1 radius ^ 2 - s_1.center.x ^ 2 - s_1.center.y ^ 2 - s_1.center.z ^ 2

/-- `dot_uv = dot(unitvector_u, unitvector_v)`. -/
noncomputable def dot_uv (s_1 s_2 s_3 : Sphere) : ℝ :=
  Vec3.dot (unitvector_u s_1 s_2) (unitvector_v s_1 s_3)

/-- `dot_wt = dot(vector_w, unitvector_t)`. -/
noncomputable def dot_wt (s_1 s_2 s_3 : Sphere) : ℝ :=
  Vec3.dot (vector_w s_1) (unitvector_t s_1 s_2 s_3)

/-- `dot_uw = dot(unitvector_u, vector_w)`. -/
noncomputable def dot_uw (s_1 s_2 : Sphere) : ℝ :=
  Vec3.dot (unitvector_u s_1 s_2) (vector_w s_1)

/-- `dot_vw = dot(unitvector_v, vector_w)`. -/
noncomputable def dot_vw (s_1 s_3 : Sphere) : ℝ :=
  Vec3.dot (unitvector_v s_1 s_3) (vector_w s_1)

/-- `alpha` of `identify_f` (lib.rs line 387). -/
noncomputable def alpha (s_1 s_2 s_3 : Sphere) (radius : ℝ) : ℝ :=
  (distance_a s_1 s_2 radius - distance_b s_1 s_3 radius * dot_uv s_1 s_2 s_3) /
    (1 - dot_uv s_1 s_2 s_3 ^ 2)

/-- `beta` of `identify_f` (lib.rs line 388). -/
noncomputable def beta (s_1 s_2 s_3 : Sphere) (radius : ℝ) : ℝ :=
  (distance_b s_1 s_3 radius - distance_a s_1 s_2 radius * dot_uv s_1 s_2 s_3) /
    (1 - dot_uv s_1 s_2 s_3 ^ 2)

/-- `value_d` of `identify_f` (lib.rs lines 389–390). -/
noncomputable def value_d (s_1 s_2 s_3 : Sphere) (radius : ℝ) : ℝ :=
  alpha s_1 s_2 s_3 radius ^ 2 + beta s_1 s_2 s_3 radius ^ 2 +
    2 * alpha s_1 s_2 s_3 radius * beta s_1 s_2 s_3 radius * dot_uv s_1 s_2 s_3 +
    alpha s_1 s_2 s_3 radius * dot_uw s_1 s_2 +
    beta s_1 s_2 s_3 radius * dot_vw s_1 s_3 - distance_c s_1 radius

/-- The discriminant `dot_wt² − 4·value_d` of the quadratic in `γ`. -/
noncomputable def discrim (s_1 s_2 s_3 : Sphere) (radius : ℝ) : ℝ :=
  dot_wt s_1 s_2 s_3 ^ 2 - 4 * value_d s_1 s_2 s_3 radius

/-- `gamma_pos` (lib.rs line 399). -/
noncomputable def gamma_pos (s_1 s_2 s_3 : Sphere) (radius : ℝ) : ℝ :=
  0.5 * (-dot_wt s_1 s_2 s_3 +
    Real.sqrt (dot_wt s_1 s_2 s_3 ^ 2 - 4 * value_d s_1 s_2 s_3 radius))

/-- `gamma_neg` (lib.rs line 400). -/
noncomputable def gamma_neg (s_1 s_2 s_3 : Sphere) (radius : ℝ) : ℝ :=
  0.5 * (-dot_wt s_1 s_2 s_3 -
    Real.sqrt (dot_wt s_1 s_2 s_3 ^ 2 - 4 * value_d s_1 s_2 s_3 radius))

/-- Candidate center for a root `γ`:
`alpha * unitvector_u + beta * unitvector_v + γ * unitvector_t`. -/
noncomputable def candidate_center (s_1 s_2 s_3 : Sphere) (radius γ : ℝ) : Vec3 :=
  alpha s_1 s_2 s_3 radius • unitvector_u s_1 s_2 +
    beta s_1 s_2 s_3 radius • unitvector_v s_1 s_3 +
    γ • unitvector_t s_1 s_2 s_3

/-- `s_4_positive` (lib.rs lines 402–407). -/
noncomputable def s_4_positive (s_1 s_2 s_3 : Sphere) (radius : ℝ) : Sphere :=
  Sphere.new (candidate_center s_1 s_2 s_3 radius (gamma_pos s_1 s_2 s_3 radius)) radius

/-- `s_4_negative` (lib.rs lines 408–413). -/
noncomputable def s_4_negative (s_1 s_2 s_3 : Sphere) (radius : ℝ) : Sphere :=
  Sphere.new (candidate_center s_1 s_2 s_3 radius (gamma_neg s_1 s_2 s_3 radius)) radius

/-- The acceptance test applied to each candidate (lib.rs lines 416 and 419):
`container.contains(&s) && !set_v.iter().any(|v| v.overlaps(&s))`. -/
def accepted (container : Container) (set_v : List Sphere) (s : Sphere) : Prop :=
  container.contains s ∧ ∀ v ∈ set_v, ¬ v.overlaps s

/-- `identify_f` (lib.rs lines 330–424): the set of spheres of the given
`radius` in outer contact with `s_1`, `s_2`, `s_3` simultaneously, contained
in the container, and overlapping no element of `set_v`.

Degenerate geometry (`cross_uv = 0`, which in real arithmetic covers
`vector_u = 0`, `vector_v = 0` and collinear centers): the `f32` source
divides by a zero norm there, producing NaN components; every subsequent
comparison on NaN is false, so the function returns the empty vector.  The
embedding makes that outcome explicit with a leading guard. -/
noncomputable def identify_f (s_1 s_2 s_3 : Sphere) (container : Container)
    (set_v : List Sphere) (radius : ℝ) : List Sphere :=
  if cross_uv s_1 s_2 s_3 = 0 then []
  else if dot_wt s_1 s_2 s_3 ^ 2 > 4 * value_d s_1 s_2 s_3 radius then
    (if accepted container set_v (s_4_positive s_1 s_2 s_3 radius) then
      [s_4_positive s_1 s_2 s_3 radius] else []) ++
    (if accepted container set_v (s_4_negative s_1 s_2 s_3 radius) then
      [s_4_negative s_1 s_2 s_3 radius] else [])
  else []

/-- Per the spec's words (§4.3 step 4, for comparison with `identify_f`):
"Each real root γ gives one candidate center; evaluate both roots when real
[i.e. whenever the discriminant is ≥ 0]. Keep a candidate only if
`container.contains(candidate)` AND it overlaps no sphere in V."  This
definition differs from the source only in evaluating the candidates when
the discriminant is zero. -/
noncomputable def identify_f_per_spec (s_1 s_2 s_3 : Sphere) (container : Container)
    (set_v : List Sphere) (radius : ℝ) : List Sphere :=
  if cross_uv s_1 s_2 s_3 = 0 then []
  else if dot_wt s_1 s_2 s_3 ^ 2 ≥ 4 * value_d s_1 s_2 s_3 radius then
    (if accepted container set_v (s_4_positive s_1 s_2 s_3 radius) then
      [s_4_positive s_1 s_2 s_3 radius] else []) ++
    (if accepted container set_v (s_4_negative s_1 s_2 s_3 radius) then
      [s_4_negative s_1 s_2 s_3 radius] else []) else []

/-!
## Seed-triangle builder `init_spheres` (lib.rs lines 274–323)
-/

/-- `init_spheres`: the three pairwise-tangent seed spheres, recentred so the
incenter of the triangle of centers is the origin.  The source ends with
`assert!(init.iter().all(|sphere| container.contains(&sphere)))`; the
assertion is modelled separately by `init_spheres_assert` (a failed `assert!`
is a panic, not a reported error — see the claim C4 analysis). -/
noncomputable def init_spheres (radii : Fin 3 → ℝ) : List Sphere :=
  let radius_a := radii 0
  let radius_b := radii 1
  let radius_c := radii 2
  let distance_c := radius_a + radius_b
  let distance_b := radius_a + radius_c
  let distance_a := radius_c + radius_b
  let x := (distance_b ^ 2 + distance_c ^ 2 - distance_a ^ 2) / (2 * distance_c)
  let y := Real.sqrt (distance_b ^ 2 - x ^ 2)
  let perimeter := distance_a + distance_b + distance_c
  let incenter_x := (distance_b * distance_c + distance_c * x) / perimeter
  let incenter_y := (distance_c * y) / perimeter
  [Sphere.new ⟨-incenter_x, -incenter_y, 0⟩ radius_a,
   Sphere.new ⟨distance_c - incenter_x, -incenter_y, 0⟩ radius_b,
   Sphere.new ⟨x - incenter_x, y - incenter_y, 0⟩ radius_c]

/-- The trailing `assert!` of `init_spheres` (lib.rs line 321). -/
def init_spheres_assert (radii : Fin 3 → ℝ) (container : Container) : Prop :=
  ∀ s ∈ init_spheres radii, container.contains s

/-!
## Frontier engine `pack_spheres` (lib.rs lines 216–270)

The hidden `rand::thread_rng()` is replaced by two explicit index streams
(`rngF` for the front-member choice `rng.choose(&front)`, `rngC` for the
candidate choice `rng.choose(&set_f)`; a chosen index is taken modulo the
list length, which is exactly the uniform choice over the list once the
stream value is uniform), and the size sampler by an explicit stream `samp`
(`samp 0..2` are the seed radii, `samp 3` the first candidate radius).  The
`'outer` loop gets explicit fuel; `none` means no result was produced
(fuel exhausted, or the seed assertion panicked).
-/

/-- `rng.choose(&front).unwrap().clone()` under the index stream. -/
def curr_sphere_of (rngF : ℕ → ℕ) (iter : ℕ) (front : List Sphere) : Sphere :=
  front.getD (rngF iter % front.length) default

/-- `set_v` (lib.rs lines 243–252): spheres distinct from `curr_sphere`
whose center lies within `curr.radius + s'.radius + 2·new_radius`. -/
noncomputable def set_v_of (spheres : List Sphere) (curr_sphere : Sphere)
    (new_radius : ℝ) : List Sphere :=
  filterP (fun s_dash => s_dash ≠ curr_sphere ∧
    Vec3.dist curr_sphere.center s_dash.center ≤
      curr_sphere.radius + s_dash.radius + 2 * new_radius) spheres

/-- The first pair `(s_i, s_j)` of `pairs(&set_v)` whose `identify_f` result
is non-empty (the pair on which the source's `for` loop runs its
`continue 'outer`). -/
noncomputable def first_success (container : Container) (curr_sphere : Sphere)
    (set_v : List Sphere) (new_radius : ℝ) : Option (Sphere × Sphere) :=
  findP (fun p => identify_f curr_sphere p.1 p.2 container set_v new_radius ≠ [])
    (pairs set_v)

/-- One complete run of the `'outer` loop body plus recursion, with fuel. -/
noncomputable def packLoop (container : Container) (rngF rngC : ℕ → ℕ)
    (samp : ℕ → ℝ) :
    ℕ → ℕ → ℕ → List Sphere → List Sphere → ℝ → Option (List Sphere)
  | 0, _, _, _, _, _ => none
  | fuel + 1, iter, sampCount, spheres, front, new_radius =>
    if front = [] then some spheres
    else
      let curr_sphere := curr_sphere_of rngF iter front
      let set_v := set_v_of spheres curr_sphere new_radius
      match first_success container curr_sphere set_v new_radius with
      | some p =>
        let set_f := identify_f curr_sphere p.1 p.2 container set_v new_radius
        let s_new := set_f.getD (rngC iter % set_f.length) default
        packLoop container rngF rngC samp fuel (iter + 1) (sampCount + 1)
          (spheres ++ [s_new]) (front ++ [s_new]) (samp sampCount)
      | none =>
        packLoop container rngF rngC samp fuel (iter + 1) sampCount
          spheres (front.erase curr_sphere) new_radius

/-- `pack_spheres` (lib.rs lines 216–270). -/
noncomputable def pack_spheres (container : Container) (rngF rngC : ℕ → ℕ)
    (samp : ℕ → ℝ) (fuel : ℕ) : Option (List Sphere) :=
  let init_radii : Fin 3 → ℝ := fun i => samp i.val
  let spheres := init_spheres init_radii
  if init_spheres_assert init_radii container then
    packLoop container rngF rngC samp fuel 0 4 spheres spheres (samp 3)
  else none

/-!
## Auxiliary definitions for the verification
-/

/-- Recursive reformulation of the general (`n > 2`) branch of `pairs`:
`pairsG (a :: rest)` pairs every element of `rest` with `a` (element first,
anchor second, as the source's `zip(repeat(&set[k]))` does) and recurses.
Proved equal to the `n ≠ 2` branches of `pairs` below. -/
def pairsG : List Sphere → List (Sphere × Sphere)
  | [] => []
  | a :: rest => (rest.map fun s => (s, a)) ++ pairsG rest

/-- The state invariant of the frontier engine: all placed spheres are
contained, have positive radii, are pairwise non-overlapping
(`distance ≥ sum of radii`), and the front is a subset of the placed set. -/
def PackInv (container : Container) (spheres front : List Sphere) : Prop :=
  (∀ s ∈ spheres, container.contains s) ∧
  spheres.Pairwise (fun a b => a.radius + b.radius ≤ Vec3.dist a.center b.center) ∧
  (∀ s ∈ spheres, 0 < s.radius) ∧
  (∀ s ∈ front, s ∈ spheres)

/-- A container accepting every sphere (any Rust type whose `contains`
returns `true`). -/
def univContainer : Container := ⟨fun _ => True, 1⟩

/-- A container accepting no sphere. -/
def emptyContainer : Container := ⟨fun _ => False, 1⟩

/-- A container accepting exactly the spheres centered in the `z = 0` plane
(used to build a terminating concrete run: the three seeds lie in that plane,
every solver candidate leaves it). -/
def planeContainer : Container := ⟨fun s => s.center.z = 0, 1⟩

/-- Sampler stream drawing seed radii 3, 2, 1 and then always 1 (every value
strictly positive, meeting the sampler contract). -/
noncomputable def sampSeed : ℕ → ℝ :=
  fun n => if n = 0 then 3 else if n = 1 then 2 else 1

/-- Sampler stream drawing seed radii 3, 2, 1 and then always the value `x`
(used with non-positive `x` to exercise the missing `InvalidSample` check). -/
noncomputable def sampAfterSeed (x : ℝ) : ℕ → ℝ :=
  fun n => if n = 0 then 3 else if n = 1 then 2 else if n = 2 then 1 else x

/-- The constant-zero index stream for the front and candidate choices. -/
def rng0 : ℕ → ℕ := fun _ => 0

/-- First seed sphere produced by `init_spheres` for radii `(3, 2, 1)`. -/
def seedA : Sphere := ⟨⟨-3, -1, 0⟩, 3⟩

/-- Second seed sphere produced by `init_spheres` for radii `(3, 2, 1)`. -/
def seedB : Sphere := ⟨⟨2, -1, 0⟩, 2⟩

/-- Third seed sphere produced by `init_spheres` for radii `(3, 2, 1)`. -/
noncomputable def seedC : Sphere := ⟨⟨1/5, 7/5, 0⟩, 1⟩

/-- First reference sphere of the zero-discriminant configuration: the three
centers lie on the circle of radius 25 around the origin in the `z = 0`
plane, all radii are 24, and the candidate radius is 1, so the three tangency
spheres (radius 25 around each center) meet in exactly one point — the
origin — giving a double root `γ = 0`. -/
noncomputable def cxS1 : Sphere := ⟨⟨0, 25, 0⟩, 24⟩

/-- Second reference sphere of the zero-discriminant configuration. -/
noncomputable def cxS2 : Sphere := ⟨⟨0, -25, 0⟩, 24⟩

/-- Third reference sphere of the zero-discriminant configuration. -/
noncomputable def cxS3 : Sphere := ⟨⟨24, 7, 0⟩, 24⟩

/-- A sphere with radius 0.0004: positive, yet `2·radius < 0.001`, so it
satisfies the contact predicate against itself. -/
noncomputable def tinySphere : Sphere := ⟨⟨0, 0, 0⟩, 0.0004⟩

/-- Three unit spheres with collinear centers: a degenerate input for the
solver (`cross_uv = 0`). -/
def colA : Sphere := ⟨⟨0, 0, 0⟩, 1⟩

/-- See `colA`. -/
def colB : Sphere := ⟨⟨1, 0, 0⟩, 1⟩

/-- See `colA`. -/
def colC : Sphere := ⟨⟨2, 0, 0⟩, 1⟩

/-- Two spheres in exact contact whose centers are not collinear with the
origin (so the cross-product contact direction is nonzero). -/
noncomputable def contactA : Sphere := ⟨⟨0, 0, 1⟩, 1/2⟩

/-- See `contactA`. -/
noncomputable def contactB : Sphere := ⟨⟨1, 0, 1⟩, 1/2⟩

/-- A sphere in contact with nothing (far from `contactA`/`contactB`). -/
noncomputable def isolatedC : Sphere := ⟨⟨0, 0, 9⟩, 1/2⟩

/-- Packing in which every sphere has at least one contact. -/
noncomputable def pvTwo : PackedVolume := ⟨[contactA, contactB], univContainer⟩

/-- Packing with one contact pair and one isolated sphere. -/
noncomputable def pvThree : PackedVolume := ⟨[contactA, contactB, isolatedC], univContainer⟩

/-!
# Theorems

All definitions are above; every theorem of the development follows.
-/

namespace Vec3

@[simp] theorem add_def (a b : Vec3) : a + b = ⟨a.x + b.x, a.y + b.y, a.z + b.z⟩ := rfl

@[simp] theorem sub_def (a b : Vec3) : a - b = ⟨a.x - b.x, a.y - b.y, a.z - b.z⟩ := rfl

@[simp] theorem neg_def (a : Vec3) : -a = ⟨-a.x, -a.y, -a.z⟩ := rfl

@[simp] theorem smul_def (c : ℝ) (a : Vec3) : c • a = ⟨c * a.x, c * a.y, c * a.z⟩ := rfl

@[simp] theorem div_def (a : Vec3) (c : ℝ) : a / c = ⟨a.x / c, a.y / c, a.z / c⟩ := rfl

@[simp] theorem zero_def : (0 : Vec3) = ⟨0, 0, 0⟩ := rfl

theorem normSq_nonneg (a : Vec3) : 0 ≤ a.normSq := by
  unfold normSq; positivity

theorem norm_nonneg (a : Vec3) : 0 ≤ a.norm := Real.sqrt_nonneg _

theorem sq_norm (a : Vec3) : a.norm ^ 2 = a.normSq :=
  Real.sq_sqrt a.normSq_nonneg

theorem normSq_eq_zero_iff (a : Vec3) : a.normSq = 0 ↔ a = 0 := by
  unfold normSq
  constructor
  · intro h
    have hx : a.x = 0 := by nlinarith [sq_nonneg a.x, sq_nonneg a.y, sq_nonneg a.z]
    have hy : a.y = 0 := by nlinarith [sq_nonneg a.x, sq_nonneg a.y, sq_nonneg a.z]
    have hz : a.z = 0 := by nlinarith [sq_nonneg a.x, sq_nonneg a.y, sq_nonneg a.z]
    ext <;> simp [hx, hy, hz]
  · intro h; subst h; simp

theorem normSq_pos_of_ne_zero {a : Vec3} (h : a ≠ 0) : 0 < a.normSq := by
  rcases lt_or_eq_of_le a.normSq_nonneg with hlt | heq
  · exact hlt
  · exact absurd ((normSq_eq_zero_iff a).mp heq.symm) h

theorem norm_pos_of_ne_zero {a : Vec3} (h : a ≠ 0) : 0 < a.norm :=
  Real.sqrt_pos.mpr (normSq_pos_of_ne_zero h)

theorem norm_ne_zero_of_ne_zero {a : Vec3} (h : a ≠ 0) : a.norm ≠ 0 :=
  ne_of_gt (norm_pos_of_ne_zero h)

/-- Lagrange's identity specialised to three dimensions. -/
theorem lagrange (a b : Vec3) :
    a.normSq * b.normSq - (dot a b) ^ 2 = (cross a b).normSq := by
  unfold normSq dot cross; ring

/-- Cauchy–Schwarz for the dot product. -/
theorem dot_le_norm_mul_norm (a b : Vec3) : dot a b ≤ a.norm * b.norm := by
  have hsq : (dot a b) ^ 2 ≤ a.normSq * b.normSq := by
    have := (cross a b).normSq_nonneg
    nlinarith [lagrange a b]
  have habs : |dot a b| ≤ a.norm * b.norm := by
    have h1 : |dot a b| = Real.sqrt ((dot a b) ^ 2) := (Real.sqrt_sq_eq_abs _).symm
    rw [h1]
    calc Real.sqrt ((dot a b) ^ 2) ≤ Real.sqrt (a.normSq * b.normSq) :=
          Real.sqrt_le_sqrt hsq
      _ = a.norm * b.norm := by
          rw [Real.sqrt_mul a.normSq_nonneg]; rfl
  exact le_trans (le_abs_self _) habs

/-- Triangle inequality for the embedded norm. -/
theorem norm_add_le (a b : Vec3) : (a + b).norm ≤ a.norm + b.norm := by
  have hnn : 0 ≤ a.norm + b.norm := by
    have := a.norm_nonneg; have := b.norm_nonneg; linarith
  have hsq : (a + b).normSq ≤ (a.norm + b.norm) ^ 2 := by
    have hdot : dot a b ≤ a.norm * b.norm := dot_le_norm_mul_norm a b
    have hexp : (a + b).normSq = a.normSq + 2 * dot a b + b.normSq := by
      unfold normSq dot; simp; ring
    have h2 : (a.norm + b.norm) ^ 2 = a.normSq + 2 * (a.norm * b.norm) + b.normSq := by
      have ha := a.sq_norm; have hb := b.sq_norm; nlinarith
    rw [hexp, h2]; linarith
  calc (a + b).norm = Real.sqrt ((a + b).normSq) := rfl
    _ ≤ Real.sqrt ((a.norm + b.norm) ^ 2) := Real.sqrt_le_sqrt hsq
    _ = a.norm + b.norm := Real.sqrt_sq hnn

theorem dist_triangle (a b c : Vec3) : dist a c ≤ dist a b + dist b c := by
  have h : a - c = (a - b) + (b - c) := by ext <;> simp
  unfold dist
  rw [h]
  exact norm_add_le _ _

theorem dist_comm (a b : Vec3) : dist a b = dist b a := by
  unfold dist norm
  have h : (a - b).normSq = (b - a).normSq := by unfold normSq; simp; ring
  rw [h]

/-- When the squared distance is a perfect square of a nonnegative real, the
distance evaluates exactly. -/
theorem dist_eq_of_normSq_eq {a b : Vec3} {d : ℝ} (hd : 0 ≤ d)
    (h : (a - b).normSq = d ^ 2) : dist a b = d := by
  unfold dist norm
  rw [h]
  exact Real.sqrt_sq hd

theorem dot_comm (a b : Vec3) : dot a b = dot b a := by
  unfold dot; ring

theorem dot_self (a : Vec3) : dot a a = a.normSq := by
  unfold dot normSq; ring

theorem dot_add_left (a b c : Vec3) : dot (a + b) c = dot a c + dot b c := by
  unfold dot; simp; ring

theorem dot_smul_left (r : ℝ) (a b : Vec3) : dot (r • a) b = r * dot a b := by
  unfold dot; simp; ring

theorem dot_smul_right (r : ℝ) (a b : Vec3) : dot a (r • b) = r * dot a b := by
  unfold dot; simp; ring

theorem dot_sub_right (a b c : Vec3) : dot a (b - c) = dot a b - dot a c := by
  unfold dot; simp; ring

theorem dot_div_left (a : Vec3) (r : ℝ) (b : Vec3) : dot (a / r) b = dot a b / r := by
  unfold dot; simp; ring

theorem dot_div_right (a b : Vec3) (r : ℝ) : dot a (b / r) = dot a b / r := by
  unfold dot; simp; ring

theorem normSq_smul (r : ℝ) (a : Vec3) : normSq (r • a) = r ^ 2 * normSq a := by
  unfold normSq; simp; ring

theorem normSq_div (a : Vec3) (r : ℝ) : normSq (a / r) = normSq a / r ^ 2 := by
  unfold normSq; simp; ring

theorem normSq_sub (a b : Vec3) :
    normSq (a - b) = normSq a - 2 * dot a b + normSq b := by
  unfold normSq dot; simp; ring

theorem normSq_add3 (a b c : Vec3) :
    normSq (a + b + c) = normSq a + normSq b + normSq c +
      2 * dot a b + 2 * dot a c + 2 * dot b c := by
  unfold normSq dot; simp; ring

theorem dot_cross_left (a b : Vec3) : dot a (cross a b) = 0 := by
  unfold dot cross; ring

theorem dot_cross_right (a b : Vec3) : dot b (cross a b) = 0 := by
  unfold dot cross; ring

theorem cross_zero_left (b : Vec3) : cross 0 b = 0 := by
  unfold cross; simp

theorem cross_zero_right (a : Vec3) : cross a 0 = 0 := by
  unfold cross; simp

/-- A vector divided by its own norm is a unit vector. -/
theorem normSq_div_norm {a : Vec3} (h : a ≠ 0) : normSq (a / norm a) = 1 := by
  rw [normSq_div, sq_norm]
  exact div_self (ne_of_gt (normSq_pos_of_ne_zero h))

/-- Scaling the normalised vector back by the norm recovers the vector. -/
theorem smul_norm_div {a : Vec3} (h : a ≠ 0) : a.norm • (a / a.norm) = a := by
  have hn : a.norm ≠ 0 := norm_ne_zero_of_ne_zero h
  ext <;> simp <;> field_simp

end Vec3

namespace Sphere

@[simp] theorem new_center (c : Vec3) (r : ℝ) : (new c r).center = c := rfl

@[simp] theorem new_radius (c : Vec3) (r : ℝ) : (new c r).radius = r := rfl

end Sphere

@[simp] theorem filterP_nil {α : Type} (p : α → Prop) : filterP p [] = [] := rfl

theorem filterP_cons {α : Type} (p : α → Prop) (a : α) (t : List α) :
    filterP p (a :: t) = if p a then a :: filterP p t else filterP p t := rfl

theorem mem_filterP {α : Type} (p : α → Prop) (l : List α) (a : α) :
    a ∈ filterP p l ↔ a ∈ l ∧ p a := by
  induction l with
  | nil => simp
  | cons b t ih =>
    rw [filterP_cons]
    by_cases hb : p b
    · rw [if_pos hb]
      constructor
      · intro h
        rcases List.mem_cons.mp h with h1 | h2
        · exact ⟨by simp [h1], h1 ▸ hb⟩
        · exact ⟨List.mem_cons_of_mem _ (ih.mp h2).1, (ih.mp h2).2⟩
      · rintro ⟨hmem, hpa⟩
        rcases List.mem_cons.mp hmem with h1 | h2
        · exact h1 ▸ List.mem_cons_self _ _
        · exact List.mem_cons_of_mem _ (ih.mpr ⟨h2, hpa⟩)
    · rw [if_neg hb]
      constructor
      · intro h
        exact ⟨List.mem_cons_of_mem _ (ih.mp h).1, (ih.mp h).2⟩
      · rintro ⟨hmem, hpa⟩
        rcases List.mem_cons.mp hmem with h1 | h2
        · exact absurd (h1 ▸ hpa) hb
        · exact ih.mpr ⟨h2, hpa⟩

@[simp] theorem findP_nil {α : Type} (p : α → Prop) : findP p [] = none := rfl

theorem findP_cons {α : Type} (p : α → Prop) (a : α) (t : List α) :
    findP p (a :: t) = if p a then some a else findP p t := rfl

theorem findP_some {α : Type} {p : α → Prop} {l : List α} {a : α}
    (h : findP p l = some a) : a ∈ l ∧ p a := by
  induction l with
  | nil => simp at h
  | cons b t ih =>
    rw [findP_cons] at h
    by_cases hb : p b
    · rw [if_pos hb] at h
      cases h
      exact ⟨List.mem_cons_self _ _, hb⟩
    · rw [if_neg hb] at h
      exact ⟨List.mem_cons_of_mem _ (ih h).1, (ih h).2⟩

/-!
## Correctness of the tangent-sphere solver algebra

`tangent_core` is the coordinate-free heart of the derivation implemented by
`identify_f`: a point `c = A·U + B·V + γ·T` written in the (non-orthogonal)
basis `U, V` plus the normal direction `T` satisfies the three squared
tangency-distance equations as soon as the two linear relations (from
subtracting equation pairs) and the quadratic in `γ` hold.
-/

theorem tangent_core (U V T p1 p2 p3 : Vec3) (A B γ duv d1 d2 d3 nu nv : ℝ)
    (hUU : Vec3.dot U U = 1) (hVV : Vec3.dot V V = 1) (hTT : Vec3.dot T T = 1)
    (hUT : Vec3.dot U T = 0) (hVT : Vec3.dot V T = 0)
    (hUV : Vec3.dot U V = duv)
    (hnu : nu ≠ 0) (hnv : nv ≠ 0)
    (hUdef : p1 - p2 = nu • U) (hVdef : p1 - p3 = nv • V)
    (hA : A + B * duv = (d2 ^ 2 - d1 ^ 2 + p1.normSq - p2.normSq) / (2 * nu))
    (hB : A * duv + B = (d3 ^ 2 - d1 ^ 2 + p1.normSq - p3.normSq) / (2 * nv))
    (hq : γ ^ 2 + γ * Vec3.dot ((-2 : ℝ) • p1) T +
      (A ^ 2 + B ^ 2 + 2 * A * B * duv + A * Vec3.dot U ((-2 : ℝ) • p1) +
        B * Vec3.dot V ((-2 : ℝ) • p1) - (d1 ^ 2 - p1.normSq)) = 0) :
    (A • U + B • V + γ • T - p1).normSq = d1 ^ 2 ∧
    (A • U + B • V + γ • T - p2).normSq = d2 ^ 2 ∧
    (A • U + B • V + γ • T - p3).normSq = d3 ^ 2 := by
  set w : Vec3 := (-2 : ℝ) • p1 with hw_def
  set c : Vec3 := A • U + B • V + γ • T with hc_def
  have hnormU : U.normSq = 1 := by rw [← Vec3.dot_self]; exact hUU
  have hnormV : V.normSq = 1 := by rw [← Vec3.dot_self]; exact hVV
  have hnormT : T.normSq = 1 := by rw [← Vec3.dot_self]; exact hTT
  have hcU : Vec3.dot c U = A + B * duv := by
    rw [hc_def, Vec3.dot_add_left, Vec3.dot_add_left, Vec3.dot_smul_left,
      Vec3.dot_smul_left, Vec3.dot_smul_left, hUU, Vec3.dot_comm V U, hUV,
      Vec3.dot_comm T U, hUT]
    ring
  have hcV : Vec3.dot c V = A * duv + B := by
    rw [hc_def, Vec3.dot_add_left, Vec3.dot_add_left, Vec3.dot_smul_left,
      Vec3.dot_smul_left, Vec3.dot_smul_left, hUV, hVV, Vec3.dot_comm T V, hVT]
    ring
  have hNC : c.normSq = A ^ 2 + B ^ 2 + γ ^ 2 + 2 * A * B * duv := by
    rw [hc_def, Vec3.normSq_add3, Vec3.normSq_smul, Vec3.normSq_smul,
      Vec3.normSq_smul, hnormU, hnormV, hnormT, Vec3.dot_smul_left,
      Vec3.dot_smul_right, Vec3.dot_smul_left, Vec3.dot_smul_right,
      Vec3.dot_smul_left, Vec3.dot_smul_right, hUV, hUT, hVT]
    ring
  have hTw : Vec3.dot T w = Vec3.dot w T := Vec3.dot_comm T w
  have hcw : Vec3.dot c w =
      A * Vec3.dot U w + B * Vec3.dot V w + γ * Vec3.dot w T := by
    rw [hc_def, Vec3.dot_add_left, Vec3.dot_add_left, Vec3.dot_smul_left,
      Vec3.dot_smul_left, Vec3.dot_smul_left, hTw]
  have hw2 : Vec3.dot c w = -2 * Vec3.dot c p1 := by
    rw [hw_def]; exact Vec3.dot_smul_right _ _ _
  have hcp1 : Vec3.dot c p1 =
      (A * Vec3.dot U w + B * Vec3.dot V w + γ * Vec3.dot w T) / (-2) := by
    rw [← hcw, hw2]
    ring
  have e1 : (c - p1).normSq = A ^ 2 + B ^ 2 + γ ^ 2 + 2 * A * B * duv +
      A * Vec3.dot U w + B * Vec3.dot V w + γ * Vec3.dot w T + p1.normSq := by
    rw [Vec3.normSq_sub, hNC, hcp1]
    ring
  have heq1 : (c - p1).normSq = d1 ^ 2 := by
    rw [e1]
    linarith [hq]
  have hcu2 : Vec3.dot c (p1 - p2) =
      (d2 ^ 2 - d1 ^ 2 + p1.normSq - p2.normSq) / 2 := by
    rw [hUdef, Vec3.dot_smul_right, hcU, hA]
    field_simp
    ring
  have e2 : (c - p2).normSq =
      (c - p1).normSq + 2 * Vec3.dot c (p1 - p2) - p1.normSq + p2.normSq := by
    rw [Vec3.normSq_sub, Vec3.normSq_sub, Vec3.dot_sub_right]
    ring
  have heq2 : (c - p2).normSq = d2 ^ 2 := by
    rw [e2, heq1, hcu2]
    ring
  have hcu3 : Vec3.dot c (p1 - p3) =
      (d3 ^ 2 - d1 ^ 2 + p1.normSq - p3.normSq) / 2 := by
    rw [hVdef, Vec3.dot_smul_right, hcV, hB]
    field_simp
    ring
  have e3 : (c - p3).normSq =
      (c - p1).normSq + 2 * Vec3.dot c (p1 - p3) - p1.normSq + p3.normSq := by
    rw [Vec3.normSq_sub, Vec3.normSq_sub, Vec3.dot_sub_right]
    ring
  have heq3 : (c - p3).normSq = d3 ^ 2 := by
    rw [e3, heq1, hcu3]
    ring
  exact ⟨heq1, heq2, heq3⟩

theorem vector_u_ne_zero_of_cross {s_1 s_2 s_3 : Sphere}
    (h : cross_uv s_1 s_2 s_3 ≠ 0) : vector_u s_1 s_2 ≠ 0 := by
  intro hu
  apply h
  unfold cross_uv
  rw [hu]
  exact Vec3.cross_zero_left _

theorem vector_v_ne_zero_of_cross {s_1 s_2 s_3 : Sphere}
    (h : cross_uv s_1 s_2 s_3 ≠ 0) : vector_v s_1 s_3 ≠ 0 := by
  intro hv
  apply h
  unfold cross_uv
  rw [hv]
  exact Vec3.cross_zero_right _

/-- Away from the degenerate case the denominator `1 - dot_uv²` of `alpha`
and `beta` is strictly positive. -/
theorem one_sub_dot_uv_sq_pos {s_1 s_2 s_3 : Sphere}
    (h : cross_uv s_1 s_2 s_3 ≠ 0) : 0 < 1 - dot_uv s_1 s_2 s_3 ^ 2 := by
  have hu : vector_u s_1 s_2 ≠ 0 := vector_u_ne_zero_of_cross h
  have hv : vector_v s_1 s_3 ≠ 0 := vector_v_ne_zero_of_cross h
  have husq : (0 : ℝ) < (vector_u s_1 s_2).normSq := Vec3.normSq_pos_of_ne_zero hu
  have hvsq : (0 : ℝ) < (vector_v s_1 s_3).normSq := Vec3.normSq_pos_of_ne_zero hv
  have hcs : (0 : ℝ) < (cross_uv s_1 s_2 s_3).normSq := Vec3.normSq_pos_of_ne_zero h
  have hduv : dot_uv s_1 s_2 s_3 =
      Vec3.dot (vector_u s_1 s_2) (vector_v s_1 s_3) /
        ((vector_u s_1 s_2).norm * (vector_v s_1 s_3).norm) := by
    unfold dot_uv unitvector_u unitvector_v
    rw [Vec3.dot_div_left, Vec3.dot_div_right, div_div]
    ring
  have hkey : 1 - dot_uv s_1 s_2 s_3 ^ 2 =
      (cross_uv s_1 s_2 s_3).normSq /
        ((vector_u s_1 s_2).normSq * (vector_v s_1 s_3).normSq) := by
    rw [hduv, div_pow, mul_pow, Vec3.sq_norm, Vec3.sq_norm]
    have hl := Vec3.lagrange (vector_u s_1 s_2) (vector_v s_1 s_3)
    have hU0 : (vector_u s_1 s_2).normSq ≠ 0 := ne_of_gt husq
    have hV0 : (vector_v s_1 s_3).normSq ≠ 0 := ne_of_gt hvsq
    unfold cross_uv
    field_simp
    linear_combination hl
  rw [hkey]
  exact div_pos hcs (by positivity)

/-- The candidate centers produced by `identify_f` are tangent (at the exact
prescribed distances) to all three reference spheres, for any root `γ` of the
quadratic, provided the geometry is nondegenerate. -/
theorem candidate_center_tangent (s_1 s_2 s_3 : Sphere) (radius γ : ℝ)
    (hcross : cross_uv s_1 s_2 s_3 ≠ 0)
    (hroot : γ ^ 2 + γ * dot_wt s_1 s_2 s_3 + value_d s_1 s_2 s_3 radius = 0) :
    (candidate_center s_1 s_2 s_3 radius γ - s_1.center).normSq
        = distance_14 s_1 radius ^ 2 ∧
    (candidate_center s_1 s_2 s_3 radius γ - s_2.center).normSq
        = distance_24 s_2 radius ^ 2 ∧
    (candidate_center s_1 s_2 s_3 radius γ - s_3.center).normSq
        = distance_34 s_3 radius ^ 2 := by
  have hu : vector_u s_1 s_2 ≠ 0 := vector_u_ne_zero_of_cross hcross
  have hv : vector_v s_1 s_3 ≠ 0 := vector_v_ne_zero_of_cross hcross
  have hnu : (vector_u s_1 s_2).norm ≠ 0 := Vec3.norm_ne_zero_of_ne_zero hu
  have hnv : (vector_v s_1 s_3).norm ≠ 0 := Vec3.norm_ne_zero_of_ne_zero hv
  have hden : 1 - dot_uv s_1 s_2 s_3 ^ 2 ≠ 0 :=
    ne_of_gt (one_sub_dot_uv_sq_pos hcross)
  have hUU : Vec3.dot (unitvector_u s_1 s_2) (unitvector_u s_1 s_2) = 1 := by
    rw [Vec3.dot_self]
    exact Vec3.normSq_div_norm hu
  have hVV : Vec3.dot (unitvector_v s_1 s_3) (unitvector_v s_1 s_3) = 1 := by
    rw [Vec3.dot_self]
    exact Vec3.normSq_div_norm hv
  have hTT : Vec3.dot (unitvector_t s_1 s_2 s_3) (unitvector_t s_1 s_2 s_3) = 1 := by
    rw [Vec3.dot_self]
    exact Vec3.normSq_div_norm hcross
  have hUT : Vec3.dot (unitvector_u s_1 s_2) (unitvector_t s_1 s_2 s_3) = 0 := by
    unfold unitvector_u unitvector_t cross_uv
    rw [Vec3.dot_div_left, Vec3.dot_div_right, Vec3.dot_cross_left]
    simp
  have hVT : Vec3.dot (unitvector_v s_1 s_3) (unitvector_t s_1 s_2 s_3) = 0 := by
    unfold unitvector_v unitvector_t cross_uv
    rw [Vec3.dot_div_left, Vec3.dot_div_right, Vec3.dot_cross_right]
    simp
  have hUdef : s_1.center - s_2.center =
      (vector_u s_1 s_2).norm • unitvector_u s_1 s_2 := by
    unfold unitvector_u
    rw [Vec3.smul_norm_div hu]
    rfl
  have hVdef : s_1.center - s_3.center =
      (vector_v s_1 s_3).norm • unitvector_v s_1 s_3 := by
    unfold unitvector_v
    rw [Vec3.smul_norm_div hv]
    rfl
  have hA : alpha s_1 s_2 s_3 radius + beta s_1 s_2 s_3 radius * dot_uv s_1 s_2 s_3 =
      (distance_24 s_2 radius ^ 2 - distance_14 s_1 radius ^ 2 +
        s_1.center.normSq - s_2.center.normSq) / (2 * (vector_u s_1 s_2).norm) := by
    unfold alpha beta distance_a Vec3.normSq
    field_simp
    ring
  have hB : alpha s_1 s_2 s_3 radius * dot_uv s_1 s_2 s_3 + beta s_1 s_2 s_3 radius =
      (distance_34 s_3 radius ^ 2 - distance_14 s_1 radius ^ 2 +
        s_1.center.normSq - s_3.center.normSq) / (2 * (vector_v s_1 s_3).norm) := by
    unfold alpha beta distance_b Vec3.normSq
    field_simp
    ring
  have hq : γ ^ 2 + γ * Vec3.dot ((-2 : ℝ) • s_1.center) (unitvector_t s_1 s_2 s_3) +
      (alpha s_1 s_2 s_3 radius ^ 2 + beta s_1 s_2 s_3 radius ^ 2 +
        2 * alpha s_1 s_2 s_3 radius * beta s_1 s_2 s_3 radius * dot_uv s_1 s_2 s_3 +
        alpha s_1 s_2 s_3 radius *
          Vec3.dot (unitvector_u s_1 s_2) ((-2 : ℝ) • s_1.center) +
        beta s_1 s_2 s_3 radius *
          Vec3.dot (unitvector_v s_1 s_3) ((-2 : ℝ) • s_1.center) -
        (distance_14 s_1 radius ^ 2 - s_1.center.normSq)) = 0 := by
    have h := hroot
    unfold value_d distance_c dot_uw dot_vw dot_wt vector_w at h
    unfold Vec3.normSq
    linear_combination h
  have H := tangent_core (unitvector_u s_1 s_2) (unitvector_v s_1 s_3)
    (unitvector_t s_1 s_2 s_3) s_1.center s_2.center s_3.center
    (alpha s_1 s_2 s_3 radius) (beta s_1 s_2 s_3 radius) γ (dot_uv s_1 s_2 s_3)
    (distance_14 s_1 radius) (distance_24 s_2 radius) (distance_34 s_3 radius)
    (vector_u s_1 s_2).norm (vector_v s_1 s_3).norm
    hUU hVV hTT hUT hVT rfl hnu hnv hUdef hVdef hA hB hq
  exact H

/-- `gamma_pos` solves the quadratic `γ² + γ·dot_wt + value_d = 0` whenever
the discriminant is nonnegative. -/
theorem gamma_pos_is_root (s_1 s_2 s_3 : Sphere) (radius : ℝ)
    (hd : 0 ≤ discrim s_1 s_2 s_3 radius) :
    gamma_pos s_1 s_2 s_3 radius ^ 2 +
      gamma_pos s_1 s_2 s_3 radius * dot_wt s_1 s_2 s_3 +
      value_d s_1 s_2 s_3 radius = 0 := by
  unfold discrim at hd
  have hs : Real.sqrt (dot_wt s_1 s_2 s_3 ^ 2 - 4 * value_d s_1 s_2 s_3 radius) ^ 2 =
      dot_wt s_1 s_2 s_3 ^ 2 - 4 * value_d s_1 s_2 s_3 radius := Real.sq_sqrt hd
  unfold gamma_pos
  linear_combination (1 / 4 : ℝ) * hs

/-- `gamma_neg` solves the quadratic `γ² + γ·dot_wt + value_d = 0` whenever
the discriminant is nonnegative. -/
theorem gamma_neg_is_root (s_1 s_2 s_3 : Sphere) (radius : ℝ)
    (hd : 0 ≤ discrim s_1 s_2 s_3 radius) :
    gamma_neg s_1 s_2 s_3 radius ^ 2 +
      gamma_neg s_1 s_2 s_3 radius * dot_wt s_1 s_2 s_3 +
      value_d s_1 s_2 s_3 radius = 0 := by
  unfold discrim at hd
  have hs : Real.sqrt (dot_wt s_1 s_2 s_3 ^ 2 - 4 * value_d s_1 s_2 s_3 radius) ^ 2 =
      dot_wt s_1 s_2 s_3 ^ 2 - 4 * value_d s_1 s_2 s_3 radius := Real.sq_sqrt hd
  unfold gamma_neg
  linear_combination (1 / 4 : ℝ) * hs

/-- Everything that holds of a sphere returned by `identify_f`: it passed the
containment and overlap filters, it carries the requested radius, and its
center is at the exact prescribed tangency distance (squared) from each of
the three reference centers. -/
theorem mem_identify_f {s_1 s_2 s_3 : Sphere} {container : Container}
    {set_v : List Sphere} {radius : ℝ} {c : Sphere}
    (h : c ∈ identify_f s_1 s_2 s_3 container set_v radius) :
    container.contains c ∧ (∀ v ∈ set_v, ¬ v.overlaps c) ∧ c.radius = radius ∧
    (c.center - s_1.center).normSq = distance_14 s_1 radius ^ 2 ∧
    (c.center - s_2.center).normSq = distance_24 s_2 radius ^ 2 ∧
    (c.center - s_3.center).normSq = distance_34 s_3 radius ^ 2 := by
  unfold identify_f at h
  by_cases hcr : cross_uv s_1 s_2 s_3 = 0
  · rw [if_pos hcr] at h
    simp at h
  · rw [if_neg hcr] at h
    by_cases hdisc : dot_wt s_1 s_2 s_3 ^ 2 > 4 * value_d s_1 s_2 s_3 radius
    · rw [if_pos hdisc] at h
      have hd0 : 0 ≤ discrim s_1 s_2 s_3 radius := by
        unfold discrim
        linarith
      rcases List.mem_append.mp h with h1 | h1
      · by_cases hacc : accepted container set_v (s_4_positive s_1 s_2 s_3 radius)
        · rw [if_pos hacc] at h1
          have hc : c = s_4_positive s_1 s_2 s_3 radius := by simpa using h1
          subst hc
          obtain ⟨hc1, hc2⟩ := hacc
          have ht := candidate_center_tangent s_1 s_2 s_3 radius
            (gamma_pos s_1 s_2 s_3 radius) hcr
            (gamma_pos_is_root s_1 s_2 s_3 radius hd0)
          exact ⟨hc1, hc2, rfl, ht.1, ht.2.1, ht.2.2⟩
        · rw [if_neg hacc] at h1
          simp at h1
      · by_cases hacc : accepted container set_v (s_4_negative s_1 s_2 s_3 radius)
        · rw [if_pos hacc] at h1
          have hc : c = s_4_negative s_1 s_2 s_3 radius := by simpa using h1
          subst hc
          obtain ⟨hc1, hc2⟩ := hacc
          have ht := candidate_center_tangent s_1 s_2 s_3 radius
            (gamma_neg s_1 s_2 s_3 radius) hcr
            (gamma_neg_is_root s_1 s_2 s_3 radius hd0)
          exact ⟨hc1, hc2, rfl, ht.1, ht.2.1, ht.2.2⟩
        · rw [if_neg hacc] at h1
          simp at h1
    · rw [if_neg hdisc] at h
      simp at h

/-- A sphere returned by `identify_f` is tangent to `s_1` as a distance:
`dist = s_1.radius + radius`, provided the resulting distance is
nonnegative. -/
theorem mem_identify_f_dist_s1 {s_1 s_2 s_3 : Sphere} {container : Container}
    {set_v : List Sphere} {radius : ℝ} {c : Sphere}
    (h : c ∈ identify_f s_1 s_2 s_3 container set_v radius)
    (hr : 0 ≤ s_1.radius + radius) :
    Vec3.dist c.center s_1.center = s_1.radius + radius := by
  have ht := (mem_identify_f h).2.2.2.1
  exact Vec3.dist_eq_of_normSq_eq hr ht

/-!
## Geometry of the seed triangle
-/

/-- The in-plane coordinate `x` of the third seed center stays within the
tangent distance `distance_b`, by the (strict) triangle inequality on the
three pairwise tangent distances; the difference is `16·r₀·r₁·r₂·(r₀+r₁+r₂)`
over the square of the base. -/
theorem seed_x_sq_le (r0 r1 r2 : ℝ) (h0 : 0 < r0) (h1 : 0 < r1) (h2 : 0 < r2) :
    (((r0 + r2) ^ 2 + (r0 + r1) ^ 2 - (r2 + r1) ^ 2) / (2 * (r0 + r1))) ^ 2 ≤
      (r0 + r2) ^ 2 := by
  have hdc : (0 : ℝ) < r0 + r1 := by linarith
  rw [div_pow, div_le_iff₀ (by positivity)]
  have key : (r0 + r2) ^ 2 * (2 * (r0 + r1)) ^ 2 -
      ((r0 + r2) ^ 2 + (r0 + r1) ^ 2 - (r2 + r1) ^ 2) ^ 2 =
      16 * r0 * r1 * r2 * (r0 + r1 + r2) := by ring
  nlinarith [mul_pos (mul_pos (mul_pos h0 h1) h2)
    (show (0 : ℝ) < r0 + r1 + r2 by linarith)]

/-- For strictly positive radii the three seed spheres are pairwise exactly
tangent: each pairwise center distance equals the sum of the two radii, so in
particular no pair strictly overlaps. -/
theorem init_spheres_pairwise (r : Fin 3 → ℝ)
    (h0 : 0 < r 0) (h1 : 0 < r 1) (h2 : 0 < r 2) :
    (init_spheres r).Pairwise
      (fun a b => a.radius + b.radius ≤ Vec3.dist a.center b.center) := by
  have hdc : (0 : ℝ) < r 0 + r 1 := by linarith
  have hxsq := seed_x_sq_le (r 0) (r 1) (r 2) h0 h1 h2
  have hy2 : Real.sqrt ((r 0 + r 2) ^ 2 -
      (((r 0 + r 2) ^ 2 + (r 0 + r 1) ^ 2 - (r 2 + r 1) ^ 2) /
        (2 * (r 0 + r 1))) ^ 2) ^ 2 =
      (r 0 + r 2) ^ 2 -
      (((r 0 + r 2) ^ 2 + (r 0 + r 1) ^ 2 - (r 2 + r 1) ^ 2) /
        (2 * (r 0 + r 1))) ^ 2 :=
    Real.sq_sqrt (by linarith)
  have h2x : 2 * (r 0 + r 1) *
      (((r 0 + r 2) ^ 2 + (r 0 + r 1) ^ 2 - (r 2 + r 1) ^ 2) /
        (2 * (r 0 + r 1))) =
      (r 0 + r 2) ^ 2 + (r 0 + r 1) ^ 2 - (r 2 + r 1) ^ 2 := by
    field_simp
  unfold init_spheres
  rw [List.pairwise_cons, List.pairwise_cons, List.pairwise_cons]
  refine ⟨?_, ?_, ?_, List.Pairwise.nil⟩
  · intro b hb
    rcases List.mem_cons.mp hb with hb1 | hb
    · subst hb1
      simp only [Sphere.new_radius, Sphere.new_center]
      refine (Vec3.dist_eq_of_normSq_eq (show (0 : ℝ) ≤ r 0 + r 1 by linarith) ?_).ge
      unfold Vec3.normSq
      simp only [Vec3.sub_def]
      ring
    · rcases List.mem_cons.mp hb with hb1 | hb
      · subst hb1
        simp only [Sphere.new_radius, Sphere.new_center]
        refine (Vec3.dist_eq_of_normSq_eq (show (0 : ℝ) ≤ r 0 + r 2 by linarith) ?_).ge
        unfold Vec3.normSq
        simp only [Vec3.sub_def]
        linear_combination hy2
      · simp at hb
  · intro b hb
    rcases List.mem_cons.mp hb with hb1 | hb
    · subst hb1
      simp only [Sphere.new_radius, Sphere.new_center]
      refine (Vec3.dist_eq_of_normSq_eq (show (0 : ℝ) ≤ r 1 + r 2 by linarith) ?_).ge
      unfold Vec3.normSq
      simp only [Vec3.sub_def]
      linear_combination hy2 - h2x
    · simp at hb
  · intro b hb
    simp at hb

/-- Each of the three seed spheres carries one of the (positive) input
radii. -/
theorem init_spheres_radius_pos (r : Fin 3 → ℝ)
    (h0 : 0 < r 0) (h1 : 0 < r 1) (h2 : 0 < r 2) :
    ∀ s ∈ init_spheres r, 0 < s.radius := by
  unfold init_spheres
  intro s hs
  rcases List.mem_cons.mp hs with h | hs
  · subst h; simpa using h0
  · rcases List.mem_cons.mp hs with h | hs
    · subst h; simpa using h1
    · rcases List.mem_cons.mp hs with h | hs
      · subst h; simpa using h2
      · simp at hs

/-!
## The frontier-engine loop invariant
-/

theorem getD_mem_of_lt {α : Type} (l : List α) (n : ℕ) (d : α)
    (h : n < l.length) : l.getD n d ∈ l := by
  induction l generalizing n with
  | nil => simp at h
  | cons a t ih =>
    cases n with
    | zero => simp [List.getD]
    | succ m =>
      have hm : m < t.length := by simpa using h
      have : (a :: t).getD (m + 1) d = t.getD m d := rfl
      rw [this]
      exact List.mem_cons_of_mem _ (ih m hm)

theorem getD_mod_mem {α : Type} (l : List α) (n : ℕ) (d : α) (h : l ≠ []) :
    l.getD (n % l.length) d ∈ l :=
  getD_mem_of_lt _ _ _ (Nat.mod_lt _ (List.length_pos.mpr h))

theorem mem_set_v_iff (spheres : List Sphere) (curr_sphere : Sphere)
    (new_radius : ℝ) (s : Sphere) :
    s ∈ set_v_of spheres curr_sphere new_radius ↔
      s ∈ spheres ∧ s ≠ curr_sphere ∧
        Vec3.dist curr_sphere.center s.center ≤
          curr_sphere.radius + s.radius + 2 * new_radius := by
  unfold set_v_of
  rw [mem_filterP]

/-- A candidate accepted by `identify_f` run against the reach-bounded
neighbour set `V` in fact overlaps nothing in the whole placed set: spheres
in `V` were checked directly, the front sphere itself is exactly tangent, and
everything outside the reach bound is too far away by the triangle
inequality. -/
theorem identify_f_no_overlap_all {container : Container}
    {spheres front : List Sphere} {curr_sphere s_i s_j : Sphere}
    {new_radius : ℝ} {c : Sphere}
    (hinv : PackInv container spheres front)
    (hcurr : curr_sphere ∈ spheres)
    (hnr : 0 < new_radius)
    (hc : c ∈ identify_f curr_sphere s_i s_j container
      (set_v_of spheres curr_sphere new_radius) new_radius) :
    ∀ s ∈ spheres, s.radius + c.radius ≤ Vec3.dist s.center c.center := by
  obtain ⟨hcont, hnov, hrad, ht1, _, _⟩ := mem_identify_f hc
  have hr0 : 0 < curr_sphere.radius := hinv.2.2.1 curr_sphere hcurr
  have htan : Vec3.dist c.center curr_sphere.center =
      curr_sphere.radius + new_radius :=
    mem_identify_f_dist_s1 hc (by linarith)
  intro s hs
  by_cases hsv : s ∈ set_v_of spheres curr_sphere new_radius
  · have hno := hnov s hsv
    unfold Sphere.overlaps at hno
    rw [hrad]
    have := not_lt.mp hno
    have hcm : Vec3.dist s.center c.center = Vec3.dist c.center s.center :=
      Vec3.dist_comm _ _
    linarith [this, hcm.ge, hcm.le]
  · by_cases heq : s = curr_sphere
    · subst heq
      rw [hrad, Vec3.dist_comm]
      linarith [htan.ge]
    · have h2 : ¬ Vec3.dist curr_sphere.center s.center ≤
          curr_sphere.radius + s.radius + 2 * new_radius := by
        intro hle
        exact hsv ((mem_set_v_iff spheres curr_sphere new_radius s).mpr
          ⟨hs, heq, hle⟩)
      have hgt := not_le.mp h2
      have htri := Vec3.dist_triangle curr_sphere.center c.center s.center
      have hcs : Vec3.dist c.center s.center = Vec3.dist s.center c.center :=
        Vec3.dist_comm _ _
      rw [hrad]
      linarith [htri, hgt, htan, hcs.le, hcs.ge,
        (Vec3.dist_comm curr_sphere.center c.center).le,
        (Vec3.dist_comm curr_sphere.center c.center).ge]
  -- the remaining hypotheses on the radius are carried by `hrad`

/-- Accepting a solver candidate preserves the packing invariant. -/
theorem packInv_push {container : Container} {spheres front : List Sphere}
    {curr_sphere s_i s_j : Sphere} {new_radius : ℝ} {c : Sphere}
    (hinv : PackInv container spheres front)
    (hcurr : curr_sphere ∈ spheres)
    (hnr : 0 < new_radius)
    (hc : c ∈ identify_f curr_sphere s_i s_j container
      (set_v_of spheres curr_sphere new_radius) new_radius) :
    PackInv container (spheres ++ [c]) (front ++ [c]) := by
  obtain ⟨hcnt, hpw, hradpos, hsub⟩ := hinv
  obtain ⟨hcont, _, hrad, _⟩ := mem_identify_f hc
  have hnov := identify_f_no_overlap_all
    ⟨hcnt, hpw, hradpos, hsub⟩ hcurr hnr hc
  refine ⟨?_, ?_, ?_, ?_⟩
  · intro s hs
    rcases List.mem_append.mp hs with h | h
    · exact hcnt s h
    · have : s = c := by simpa using h
      subst this
      exact hcont
  · rw [List.pairwise_append]
    refine ⟨hpw, by simp, ?_⟩
    intro a ha b hb
    have hb' : b = c := by simpa using hb
    subst hb'
    exact hnov a ha
  · intro s hs
    rcases List.mem_append.mp hs with h | h
    · exact hradpos s h
    · have : s = c := by simpa using h
      subst this
      rw [hrad]
      exact hnr
  · intro s hs
    rcases List.mem_append.mp hs with h | h
    · exact List.mem_append_left _ (hsub s h)
    · exact List.mem_append_right _ h

/-- One-step equation of the loop: exhausted front member (no pair
succeeded) — the member is erased, the radius and sample counter are kept. -/
theorem packLoop_step_none (container : Container) (rngF rngC : ℕ → ℕ)
    (samp : ℕ → ℝ) (fuel iter sampCount : ℕ) (spheres front : List Sphere)
    (new_radius : ℝ)
    (h1 : front ≠ [])
    (h2 : first_success container (curr_sphere_of rngF iter front)
      (set_v_of spheres (curr_sphere_of rngF iter front) new_radius)
      new_radius = none) :
    packLoop container rngF rngC samp (fuel + 1) iter sampCount spheres front
        new_radius =
      packLoop container rngF rngC samp fuel (iter + 1) sampCount spheres
        (front.erase (curr_sphere_of rngF iter front)) new_radius := by
  simp only [packLoop]
  rw [if_neg h1, h2]

/-- One-step equation of the loop: the first successful pair `p` yields the
candidate list `set_f`; one candidate is chosen, appended to both lists, and
a fresh radius is drawn. -/
theorem packLoop_step_some (container : Container) (rngF rngC : ℕ → ℕ)
    (samp : ℕ → ℝ) (fuel iter sampCount : ℕ) (spheres front : List Sphere)
    (new_radius : ℝ) (p : Sphere × Sphere)
    (h1 : front ≠ [])
    (h2 : first_success container (curr_sphere_of rngF iter front)
      (set_v_of spheres (curr_sphere_of rngF iter front) new_radius)
      new_radius = some p) :
    packLoop container rngF rngC samp (fuel + 1) iter sampCount spheres front
        new_radius =
      packLoop container rngF rngC samp fuel (iter + 1) (sampCount + 1)
        (spheres ++ [(identify_f (curr_sphere_of rngF iter front) p.1 p.2
            container (set_v_of spheres (curr_sphere_of rngF iter front)
              new_radius) new_radius).getD
          (rngC iter % (identify_f (curr_sphere_of rngF iter front) p.1 p.2
            container (set_v_of spheres (curr_sphere_of rngF iter front)
              new_radius) new_radius).length) default])
        (front ++ [(identify_f (curr_sphere_of rngF iter front) p.1 p.2
            container (set_v_of spheres (curr_sphere_of rngF iter front)
              new_radius) new_radius).getD
          (rngC iter % (identify_f (curr_sphere_of rngF iter front) p.1 p.2
            container (set_v_of spheres (curr_sphere_of rngF iter front)
              new_radius) new_radius).length) default])
        (samp sampCount) := by
  simp only [packLoop]
  rw [if_neg h1, h2]

/-- Fuel-indexed loop invariant: any list returned by `packLoop` from an
invariant-satisfying state (with positive current radius and a positive
sampler stream) is fully contained and pairwise non-overlapping. -/
theorem packLoop_inv (container : Container) (rngF rngC : ℕ → ℕ)
    (samp : ℕ → ℝ) (hs : ∀ n, 0 < samp n) :
    ∀ fuel iter sampCount spheres front new_radius result,
    0 < new_radius →
    PackInv container spheres front →
    packLoop container rngF rngC samp fuel iter sampCount spheres front
      new_radius = some result →
    (∀ s ∈ result, container.contains s) ∧
    result.Pairwise
      (fun a b => a.radius + b.radius ≤ Vec3.dist a.center b.center) := by
  intro fuel
  induction fuel with
  | zero =>
    intro iter sampCount spheres front new_radius result _ _ hres
    simp [packLoop] at hres
  | succ n ih =>
    intro iter sampCount spheres front new_radius result hnr hinv hres
    by_cases hf : front = []
    · simp only [packLoop] at hres
      rw [if_pos hf] at hres
      cases hres
      exact ⟨hinv.1, hinv.2.1⟩
    · cases hfs : first_success container (curr_sphere_of rngF iter front)
        (set_v_of spheres (curr_sphere_of rngF iter front) new_radius)
        new_radius with
      | none =>
        rw [packLoop_step_none container rngF rngC samp n iter sampCount
          spheres front new_radius hf hfs] at hres
        refine ih (iter + 1) sampCount spheres
          (front.erase (curr_sphere_of rngF iter front)) new_radius result
          hnr ?_ hres
        obtain ⟨hcnt, hpw, hradpos, hsub⟩ := hinv
        exact ⟨hcnt, hpw, hradpos,
          fun s hs' => hsub s (List.erase_subset _ front hs')⟩
      | some p =>
        rw [packLoop_step_some container rngF rngC samp n iter sampCount
          spheres front new_radius p hf hfs] at hres
        have hcurrf : curr_sphere_of rngF iter front ∈ front :=
          getD_mod_mem front _ default hf
        have hcurr : curr_sphere_of rngF iter front ∈ spheres :=
          hinv.2.2.2 _ hcurrf
        have hne : identify_f (curr_sphere_of rngF iter front) p.1 p.2
            container (set_v_of spheres (curr_sphere_of rngF iter front)
              new_radius) new_radius ≠ [] :=
          (findP_some hfs).2
        have hcmem := getD_mod_mem (identify_f (curr_sphere_of rngF iter front)
          p.1 p.2 container (set_v_of spheres (curr_sphere_of rngF iter front)
            new_radius) new_radius) (rngC iter) default hne
        exact ih (iter + 1) (sampCount + 1) _ _ (samp sampCount) result
          (hs sampCount) (packInv_push hinv hcurr hnr hcmem) hres

/-- Claim C1: for every packing returned by `pack_spheres` (for any
container and positive sampler stream for which it returns), every sphere of
the result is contained in the container, and every pair of distinct spheres
satisfies `distance(center_i, center_j) ≥ radius_i + radius_j` (no strict
overlap). -/
theorem claim_C1 (container : Container) (rngF rngC : ℕ → ℕ) (samp : ℕ → ℝ)
    (fuel : ℕ) (result : List Sphere)
    (hs : ∀ n, 0 < samp n)
    (hres : pack_spheres container rngF rngC samp fuel = some result) :
    (∀ s ∈ result, container.contains s) ∧
    result.Pairwise
      (fun a b => a.radius + b.radius ≤ Vec3.dist a.center b.center) := by
  unfold pack_spheres at hres
  by_cases hassert : init_spheres_assert (fun i => samp i.val) container
  · rw [if_pos hassert] at hres
    have h0 : 0 < (fun i : Fin 3 => samp i.val) 0 := hs 0
    have h1 : 0 < (fun i : Fin 3 => samp i.val) 1 := hs 1
    have h2 : 0 < (fun i : Fin 3 => samp i.val) 2 := hs 2
    have hinv : PackInv container (init_spheres fun i => samp i.val)
        (init_spheres fun i => samp i.val) :=
      ⟨hassert, init_spheres_pairwise _ h0 h1 h2,
        init_spheres_radius_pos _ h0 h1 h2, fun s h => h⟩
    exact packLoop_inv container rngF rngC samp hs fuel 0 4 _ _ _ result
      (hs 3) hinv hres
  · rw [if_neg hassert] at hres
    cases hres

/-!
## A terminating concrete run

With all reference centers in the `z = 0` plane, `dot_wt = 0`, so the two
roots are `±√disc/2`; when the branch is taken (`disc > 0`) both are nonzero
and both candidate centers leave the plane.  Against `planeContainer` every
candidate is therefore rejected and `identify_f` returns the empty list —
without having to evaluate the solver numerically.
-/

theorem identify_f_plane (s_1 s_2 s_3 : Sphere) (set_v : List Sphere)
    (radius : ℝ)
    (h1 : s_1.center.z = 0) (h2 : s_2.center.z = 0) (h3 : s_3.center.z = 0) :
    identify_f s_1 s_2 s_3 planeContainer set_v radius = [] := by
  unfold identify_f
  by_cases hcr : cross_uv s_1 s_2 s_3 = 0
  · rw [if_pos hcr]
  · rw [if_neg hcr]
    by_cases hdisc : dot_wt s_1 s_2 s_3 ^ 2 > 4 * value_d s_1 s_2 s_3 radius
    · rw [if_pos hdisc]
      have hcx : (cross_uv s_1 s_2 s_3).x = 0 := by
        unfold cross_uv vector_u vector_v Vec3.cross
        simp [h1, h2, h3]
      have hcy : (cross_uv s_1 s_2 s_3).y = 0 := by
        unfold cross_uv vector_u vector_v Vec3.cross
        simp [h1, h2, h3]
      have hcz : (cross_uv s_1 s_2 s_3).z ≠ 0 := by
        intro h0
        apply hcr
        ext
        · simpa using hcx
        · simpa using hcy
        · simpa using h0
      have hnorm : (cross_uv s_1 s_2 s_3).norm ≠ 0 :=
        Vec3.norm_ne_zero_of_ne_zero hcr
      have hTz : (unitvector_t s_1 s_2 s_3).z ≠ 0 := by
        unfold unitvector_t
        simp only [Vec3.div_def]
        exact div_ne_zero hcz hnorm
      have hUz : (unitvector_u s_1 s_2).z = 0 := by
        unfold unitvector_u vector_u
        simp [h1, h2]
      have hVz : (unitvector_v s_1 s_3).z = 0 := by
        unfold unitvector_v vector_v
        simp [h1, h3]
      have hwt : dot_wt s_1 s_2 s_3 = 0 := by
        unfold dot_wt vector_w unitvector_t Vec3.dot
        simp only [Vec3.smul_def, Vec3.div_def]
        rw [hcx, hcy, h1]
        simp
      have hdneg : 4 * value_d s_1 s_2 s_3 radius < 0 := by
        have h := hdisc
        rw [hwt] at h
        nlinarith
      have hs0 : 0 < Real.sqrt ((0 : ℝ) ^ 2 - 4 * value_d s_1 s_2 s_3 radius) :=
        Real.sqrt_pos.mpr (by nlinarith)
      have hgp : gamma_pos s_1 s_2 s_3 radius ≠ 0 := by
        unfold gamma_pos
        rw [hwt]
        apply ne_of_gt
        ring_nf
        ring_nf at hs0
        linarith [hs0]
      have hgn : gamma_neg s_1 s_2 s_3 radius ≠ 0 := by
        unfold gamma_neg
        rw [hwt]
        apply ne_of_lt
        ring_nf
        ring_nf at hs0
        linarith [hs0]
      have hzp : (s_4_positive s_1 s_2 s_3 radius).center.z ≠ 0 := by
        unfold s_4_positive candidate_center Sphere.new
        simp only [Vec3.add_def, Vec3.smul_def]
        rw [hUz, hVz]
        simpa using mul_ne_zero hgp hTz
      have hzn : (s_4_negative s_1 s_2 s_3 radius).center.z ≠ 0 := by
        unfold s_4_negative candidate_center Sphere.new
        simp only [Vec3.add_def, Vec3.smul_def]
        rw [hUz, hVz]
        simpa using mul_ne_zero hgn hTz
      have haccp : ¬ accepted planeContainer set_v (s_4_positive s_1 s_2 s_3 radius) := by
        rintro ⟨hcont, -⟩
        exact hzp hcont
      have haccn : ¬ accepted planeContainer set_v (s_4_negative s_1 s_2 s_3 radius) := by
        rintro ⟨hcont, -⟩
        exact hzn hcont
      rw [if_neg haccp, if_neg haccn]
      rfl
    · rw [if_neg hdisc]

theorem findP_eq_none {α : Type} {p : α → Prop} {l : List α}
    (h : ∀ a ∈ l, ¬ p a) : findP p l = none := by
  induction l with
  | nil => rfl
  | cons a t ih =>
    rw [findP_cons, if_neg (h a (List.mem_cons_self a t))]
    exact ih fun b hb => h b (List.mem_cons_of_mem _ hb)

/-- Both components of any pair produced by `pairs` come from the input
list. -/
theorem mem_pairs {set : List Sphere} {pr : Sphere × Sphere}
    (h : pr ∈ pairs set) : pr.1 ∈ set ∧ pr.2 ∈ set := by
  unfold pairs at h
  by_cases h2 : set.length = 2
  · rw [if_pos h2] at h
    have hpr : pr = (set.getD 0 default, set.getD 1 default) := by simpa using h
    subst hpr
    constructor
    · exact getD_mem_of_lt _ _ _ (by omega)
    · exact getD_mem_of_lt _ _ _ (by omega)
  · rw [if_neg h2] at h
    by_cases h3 : 2 < set.length
    · rw [if_pos h3] at h
      rw [List.mem_flatMap] at h
      obtain ⟨k, hk, hpr⟩ := h
      rw [List.mem_map] at hpr
      obtain ⟨s, hsmem, heq⟩ := hpr
      have hk' : k < set.length := by
        have := List.mem_range.mp hk
        omega
      cases heq
      exact ⟨List.drop_subset _ _ hsmem, getD_mem_of_lt _ _ _ hk'⟩
    · rw [if_neg h3] at h
      simp at h

/-- Against the plane container, no pair ever succeeds: `identify_f` rejects
every candidate. -/
theorem first_success_plane (curr_sphere : Sphere) (set_v : List Sphere)
    (new_radius : ℝ)
    (hc : curr_sphere.center.z = 0)
    (hall : ∀ s ∈ set_v, s.center.z = 0) :
    first_success planeContainer curr_sphere set_v new_radius = none := by
  unfold first_success
  apply findP_eq_none
  intro pr hpr hne
  have hm := mem_pairs hpr
  exact hne (identify_f_plane _ _ _ _ _ hc (hall _ hm.1) (hall _ hm.2))

theorem set_v_subset (spheres : List Sphere) (curr_sphere : Sphere)
    (new_radius : ℝ) :
    ∀ s ∈ set_v_of spheres curr_sphere new_radius, s ∈ spheres :=
  fun s hs => ((mem_set_v_iff spheres curr_sphere new_radius s).mp hs).1

theorem sampSeed_pos : ∀ n, 0 < sampSeed n := by
  intro n
  unfold sampSeed
  split_ifs <;> norm_num

theorem seeds_planar : ∀ s ∈ [seedA, seedB, seedC], s.center.z = 0 := by
  intro s hs
  rcases List.mem_cons.mp hs with rfl | hs
  · rfl
  · rcases List.mem_cons.mp hs with rfl | hs
    · rfl
    · rcases List.mem_cons.mp hs with rfl | hs
      · rfl
      · simp at hs

/-- `init_spheres` evaluated at the radii `(3, 2, 1)`: the triangle has side
lengths 5, 4, 3, rational height `12/5`, and incenter `(3, 1)`. -/
theorem init_spheres_sampSeed :
    init_spheres (fun i => sampSeed i.val) = [seedA, seedB, seedC] := by
  have hs : Real.sqrt ((144 : ℝ)/25) = 12/5 := by
    rw [show (144 : ℝ)/25 = (12/5) ^ 2 by norm_num]
    exact Real.sqrt_sq (by norm_num)
  unfold init_spheres sampSeed seedA seedB seedC Sphere.new
  norm_num [hs]

/-- A complete terminating run: radii `(3,2,1)` seed the plane container,
every growth attempt is rejected (all candidates leave the plane), the three
front members are retired in turn, and the three seeds are returned. -/
theorem pack_run_plane :
    pack_spheres planeContainer rng0 rng0 sampSeed 4 = some [seedA, seedB, seedC] := by
  have hassert : init_spheres_assert (fun i => sampSeed i.val) planeContainer := by
    unfold init_spheres_assert
    rw [init_spheres_sampSeed]
    exact seeds_planar
  have h3 : sampSeed 3 = 1 := by norm_num [sampSeed]
  unfold pack_spheres
  rw [if_pos hassert, init_spheres_sampSeed, h3]
  have hc0 : curr_sphere_of rng0 0 [seedA, seedB, seedC] = seedA := rfl
  have hfs0 : first_success planeContainer
      (curr_sphere_of rng0 0 [seedA, seedB, seedC])
      (set_v_of [seedA, seedB, seedC]
        (curr_sphere_of rng0 0 [seedA, seedB, seedC]) 1) 1 = none := by
    rw [hc0]
    exact first_success_plane seedA _ 1 rfl
      (fun s hs => seeds_planar s (set_v_subset _ _ _ s hs))
  rw [packLoop_step_none planeContainer rng0 rng0 sampSeed 3 0 4
    [seedA, seedB, seedC] [seedA, seedB, seedC] 1 (by simp) hfs0, hc0,
    List.erase_cons_head seedA [seedB, seedC]]
  have hc1 : curr_sphere_of rng0 1 [seedB, seedC] = seedB := rfl
  have hfs1 : first_success planeContainer
      (curr_sphere_of rng0 1 [seedB, seedC])
      (set_v_of [seedA, seedB, seedC]
        (curr_sphere_of rng0 1 [seedB, seedC]) 1) 1 = none := by
    rw [hc1]
    exact first_success_plane seedB _ 1 rfl
      (fun s hs => seeds_planar s (set_v_subset _ _ _ s hs))
  rw [packLoop_step_none planeContainer rng0 rng0 sampSeed 2 1 4
    [seedA, seedB, seedC] [seedB, seedC] 1 (by simp) hfs1, hc1,
    List.erase_cons_head seedB [seedC]]
  have hc2 : curr_sphere_of rng0 2 [seedC] = seedC := rfl
  have hfs2 : first_success planeContainer
      (curr_sphere_of rng0 2 [seedC])
      (set_v_of [seedA, seedB, seedC]
        (curr_sphere_of rng0 2 [seedC]) 1) 1 = none := by
    rw [hc2]
    exact first_success_plane seedC _ 1 rfl
      (fun s hs => seeds_planar s (set_v_subset _ _ _ s hs))
  rw [packLoop_step_none planeContainer rng0 rng0 sampSeed 1 2 4
    [seedA, seedB, seedC] [seedC] 1 (by simp) hfs2, hc2,
    List.erase_cons_head seedC []]
  simp [packLoop]

/-- Claim C1, witness: the concrete run against the plane container with
seed radii `(3,2,1)` returns, and the returned packing is contained and
non-overlapping. -/
theorem claim_C1_witness :
    (∀ n, 0 < sampSeed n) ∧
    ((∀ s ∈ [seedA, seedB, seedC], planeContainer.contains s) ∧
      List.Pairwise (fun a b => a.radius + b.radius ≤ Vec3.dist a.center b.center)
        [seedA, seedB, seedC]) :=
  ⟨sampSeed_pos,
    claim_C1 planeContainer rng0 rng0 sampSeed 4 [seedA, seedB, seedC]
      sampSeed_pos pack_run_plane⟩

/-!
## A run in which the sampler yields a non-positive radius

`pack_spheres` never inspects the sign of a sampled radius.  With seed radii
`(3,2,1)` and every later sample equal to some `x < 0`, the reach bound
`r₀ + r' + 2x` falls strictly below every pairwise seed distance, so every
`set_v` is empty, the front drains, and the function returns the three seeds
normally — no error of any kind is reported.
-/

theorem dist_seedAB : Vec3.dist seedA.center seedB.center = 5 := by
  apply Vec3.dist_eq_of_normSq_eq (by norm_num)
  norm_num [seedA, seedB, Vec3.normSq]

theorem dist_seedAC : Vec3.dist seedA.center seedC.center = 4 := by
  apply Vec3.dist_eq_of_normSq_eq (by norm_num)
  norm_num [seedA, seedC, Vec3.normSq]

theorem dist_seedBC : Vec3.dist seedB.center seedC.center = 3 := by
  apply Vec3.dist_eq_of_normSq_eq (by norm_num)
  norm_num [seedB, seedC, Vec3.normSq]

theorem set_v_neg_A (x : ℝ) (hx : x < 0) :
    set_v_of [seedA, seedB, seedC] seedA x = [] := by
  have hA : ¬(seedA ≠ seedA ∧ Vec3.dist seedA.center seedA.center ≤
      seedA.radius + seedA.radius + 2 * x) := fun h => h.1 rfl
  have hB : ¬(seedB ≠ seedA ∧ Vec3.dist seedA.center seedB.center ≤
      seedA.radius + seedB.radius + 2 * x) := by
    rintro ⟨-, hle⟩
    rw [dist_seedAB] at hle
    norm_num [seedA, seedB] at hle
    linarith
  have hC : ¬(seedC ≠ seedA ∧ Vec3.dist seedA.center seedC.center ≤
      seedA.radius + seedC.radius + 2 * x) := by
    rintro ⟨-, hle⟩
    rw [dist_seedAC] at hle
    norm_num [seedA, seedC] at hle
    linarith
  unfold set_v_of
  rw [filterP_cons, if_neg hA, filterP_cons, if_neg hB, filterP_cons,
    if_neg hC, filterP_nil]

theorem set_v_neg_B (x : ℝ) (hx : x < 0) :
    set_v_of [seedA, seedB, seedC] seedB x = [] := by
  have hA : ¬(seedA ≠ seedB ∧ Vec3.dist seedB.center seedA.center ≤
      seedB.radius + seedA.radius + 2 * x) := by
    rintro ⟨-, hle⟩
    rw [Vec3.dist_comm, dist_seedAB] at hle
    norm_num [seedA, seedB] at hle
    linarith
  have hB : ¬(seedB ≠ seedB ∧ Vec3.dist seedB.center seedB.center ≤
      seedB.radius + seedB.radius + 2 * x) := fun h => h.1 rfl
  have hC : ¬(seedC ≠ seedB ∧ Vec3.dist seedB.center seedC.center ≤
      seedB.radius + seedC.radius + 2 * x) := by
    rintro ⟨-, hle⟩
    rw [dist_seedBC] at hle
    norm_num [seedB, seedC] at hle
    linarith
  unfold set_v_of
  rw [filterP_cons, if_neg hA, filterP_cons, if_neg hB, filterP_cons,
    if_neg hC, filterP_nil]

theorem set_v_neg_C (x : ℝ) (hx : x < 0) :
    set_v_of [seedA, seedB, seedC] seedC x = [] := by
  have hA : ¬(seedA ≠ seedC ∧ Vec3.dist seedC.center seedA.center ≤
      seedC.radius + seedA.radius + 2 * x) := by
    rintro ⟨-, hle⟩
    rw [Vec3.dist_comm, dist_seedAC] at hle
    norm_num [seedA, seedC] at hle
    linarith
  have hB : ¬(seedB ≠ seedC ∧ Vec3.dist seedC.center seedB.center ≤
      seedC.radius + seedB.radius + 2 * x) := by
    rintro ⟨-, hle⟩
    rw [Vec3.dist_comm, dist_seedBC] at hle
    norm_num [seedB, seedC] at hle
    linarith
  have hC : ¬(seedC ≠ seedC ∧ Vec3.dist seedC.center seedC.center ≤
      seedC.radius + seedC.radius + 2 * x) := fun h => h.1 rfl
  unfold set_v_of
  rw [filterP_cons, if_neg hA, filterP_cons, if_neg hB, filterP_cons,
    if_neg hC, filterP_nil]

/-- The run of `pack_spheres` in which every post-seed sample is the
non-positive value `x`: the packing completes normally with the three
seeds. -/
theorem pack_run_negSample (x : ℝ) (hx : x < 0) :
    pack_spheres univContainer rng0 rng0 (sampAfterSeed x) 4 =
      some [seedA, seedB, seedC] := by
  have hsamp0 : (fun i : Fin 3 => sampAfterSeed x i.val) =
      (fun i : Fin 3 => sampSeed i.val) := by
    funext i
    fin_cases i <;> norm_num [sampAfterSeed, sampSeed]
  have hassert : init_spheres_assert (fun i => sampAfterSeed x i.val)
      univContainer := by
    unfold init_spheres_assert
    intro s _
    trivial
  have h3 : sampAfterSeed x 3 = x := by norm_num [sampAfterSeed]
  unfold pack_spheres
  rw [if_pos hassert, hsamp0, init_spheres_sampSeed, h3]
  have hc0 : curr_sphere_of rng0 0 [seedA, seedB, seedC] = seedA := rfl
  have hfs0 : first_success univContainer
      (curr_sphere_of rng0 0 [seedA, seedB, seedC])
      (set_v_of [seedA, seedB, seedC]
        (curr_sphere_of rng0 0 [seedA, seedB, seedC]) x) x = none := by
    rw [hc0, set_v_neg_A x hx]
    rfl
  rw [packLoop_step_none univContainer rng0 rng0 (sampAfterSeed x) 3 0 4
    [seedA, seedB, seedC] [seedA, seedB, seedC] x (by simp) hfs0, hc0,
    List.erase_cons_head seedA [seedB, seedC]]
  have hc1 : curr_sphere_of rng0 1 [seedB, seedC] = seedB := rfl
  have hfs1 : first_success univContainer
      (curr_sphere_of rng0 1 [seedB, seedC])
      (set_v_of [seedA, seedB, seedC]
        (curr_sphere_of rng0 1 [seedB, seedC]) x) x = none := by
    rw [hc1, set_v_neg_B x hx]
    rfl
  rw [packLoop_step_none univContainer rng0 rng0 (sampAfterSeed x) 2 1 4
    [seedA, seedB, seedC] [seedB, seedC] x (by simp) hfs1, hc1,
    List.erase_cons_head seedB [seedC]]
  have hc2 : curr_sphere_of rng0 2 [seedC] = seedC := rfl
  have hfs2 : first_success univContainer
      (curr_sphere_of rng0 2 [seedC])
      (set_v_of [seedA, seedB, seedC]
        (curr_sphere_of rng0 2 [seedC]) x) x = none := by
    rw [hc2, set_v_neg_C x hx]
    rfl
  rw [packLoop_step_none univContainer rng0 rng0 (sampAfterSeed x) 1 2 4
    [seedA, seedB, seedC] [seedC] x (by simp) hfs2, hc2,
    List.erase_cons_head seedC []]
  simp [packLoop]

/-- Claim C5 (amended): `pack_spheres` performs no validation of the sampled
radii — a run whose sampler yields a non-positive radius is not rejected and
can return a packing normally; the library has no `InvalidSample` error
path. -/
theorem claim_C5 (x : ℝ) (hx : x < 0) :
    pack_spheres univContainer rng0 rng0 (sampAfterSeed x) 4 =
      some [seedA, seedB, seedC] :=
  pack_run_negSample x hx

/-- Claim C5, witness at `x = -1`. -/
theorem claim_C5_witness :
    (-1 : ℝ) < 0 ∧
    pack_spheres univContainer rng0 rng0 (sampAfterSeed (-1)) 4 =
      some [seedA, seedB, seedC] :=
  ⟨by norm_num, claim_C5 (-1) (by norm_num)⟩

/-- Claim C5, counterexample to the claim as stated: in this run the sampler
returned the non-positive radius `-1` (as its fourth draw), and
`pack_spheres` neither rejected the sample nor propagated any error — it
completed normally and returned a packing. -/
theorem claim_C5_counterexample :
    sampAfterSeed (-1) 3 ≤ 0 ∧
    pack_spheres univContainer rng0 rng0 (sampAfterSeed (-1)) 4 =
      some [seedA, seedB, seedC] :=
  ⟨by norm_num [sampAfterSeed], pack_run_negSample (-1) (by norm_num)⟩

/-- Claim C4 (code bug): when a seed sphere is not contained, the source
executes `assert!(...)` (lib.rs line 321, with the comment
`TODO: error, not assert`), i.e. it panics instead of returning a
`SeedUnplaceable` error — no such error type exists in the code, and
`pack_spheres` returns `Vec<Sphere>`, not a `Result`.  In the embedding the
panic is the `none` outcome: the run produces no caller-visible value. -/
theorem claim_C4 :
    pack_spheres emptyContainer rng0 rng0 sampSeed 4 = none := by
  have hno : ¬ init_spheres_assert (fun i => sampSeed i.val) emptyContainer := by
    intro h
    exact h seedA (by rw [init_spheres_sampSeed]; exact List.mem_cons_self _ _)
  unfold pack_spheres
  rw [if_neg hno]

/-- The embedded distance from a point to itself is zero. -/
theorem dist_self_eq_zero (a : Vec3) : Vec3.dist a a = 0 := by
  apply Vec3.dist_eq_of_normSq_eq le_rfl
  unfold Vec3.normSq
  norm_num

/-- Claim C3: one iteration of the frontier loop.  If some pair of
neighbours succeeds, the loop takes the first such pair, appends one of its
accepted candidates to both the placed set and the front (so the current
front sphere stays in the front), advances the sample counter by one (a new
radius `samp sampCount` is drawn), and — under the packing invariant with a
positive radius — the appended sphere is new (not already placed, hence a
previously retired front member is never re-added).  If no pair succeeds,
exactly the current front sphere is erased from the front (gone entirely
when the front has no duplicates) and neither the radius nor the sample
counter changes. -/
theorem claim_C3 (container : Container) (rngF rngC : ℕ → ℕ) (samp : ℕ → ℝ)
    (fuel iter sampCount : ℕ) (spheres front : List Sphere) (new_radius : ℝ)
    (hf : front ≠ []) :
    (∀ p, first_success container (curr_sphere_of rngF iter front)
        (set_v_of spheres (curr_sphere_of rngF iter front) new_radius)
        new_radius = some p →
      ∃ c, c ∈ identify_f (curr_sphere_of rngF iter front) p.1 p.2 container
          (set_v_of spheres (curr_sphere_of rngF iter front) new_radius)
          new_radius ∧
        packLoop container rngF rngC samp (fuel + 1) iter sampCount spheres
            front new_radius =
          packLoop container rngF rngC samp fuel (iter + 1) (sampCount + 1)
            (spheres ++ [c]) (front ++ [c]) (samp sampCount) ∧
        curr_sphere_of rngF iter front ∈ front ++ [c] ∧
        (PackInv container spheres front → 0 < new_radius → c ∉ spheres)) ∧
    (first_success container (curr_sphere_of rngF iter front)
        (set_v_of spheres (curr_sphere_of rngF iter front) new_radius)
        new_radius = none →
      packLoop container rngF rngC samp (fuel + 1) iter sampCount spheres
          front new_radius =
        packLoop container rngF rngC samp fuel (iter + 1) sampCount spheres
          (front.erase (curr_sphere_of rngF iter front)) new_radius ∧
      (front.Nodup → curr_sphere_of rngF iter front ∉
        front.erase (curr_sphere_of rngF iter front))) := by
  constructor
  · intro p hp
    have hne : identify_f (curr_sphere_of rngF iter front) p.1 p.2 container
        (set_v_of spheres (curr_sphere_of rngF iter front) new_radius)
        new_radius ≠ [] := (findP_some hp).2
    refine ⟨(identify_f (curr_sphere_of rngF iter front) p.1 p.2 container
        (set_v_of spheres (curr_sphere_of rngF iter front) new_radius)
        new_radius).getD
      (rngC iter % (identify_f (curr_sphere_of rngF iter front) p.1 p.2
        container (set_v_of spheres (curr_sphere_of rngF iter front)
          new_radius) new_radius).length) default, ?_, ?_, ?_, ?_⟩
    · exact getD_mod_mem _ _ _ hne
    · exact packLoop_step_some container rngF rngC samp fuel iter sampCount
        spheres front new_radius p hf hp
    · exact List.mem_append_left _ (getD_mod_mem front _ default hf)
    · intro hinv hnr hmem
      have hcurr : curr_sphere_of rngF iter front ∈ spheres :=
        hinv.2.2.2 _ (getD_mod_mem front _ default hf)
      have hno := identify_f_no_overlap_all hinv hcurr hnr
        (getD_mod_mem _ (rngC iter) default hne)
      have hself := hno _ hmem
      rw [dist_self_eq_zero] at hself
      have hrad : ((identify_f (curr_sphere_of rngF iter front) p.1 p.2
          container (set_v_of spheres (curr_sphere_of rngF iter front)
            new_radius) new_radius).getD
        (rngC iter % (identify_f (curr_sphere_of rngF iter front) p.1 p.2
          container (set_v_of spheres (curr_sphere_of rngF iter front)
            new_radius) new_radius).length) default).radius = new_radius :=
        (mem_identify_f (getD_mod_mem _ (rngC iter) default hne)).2.2.1
      rw [hrad] at hself
      linarith
  · intro hp
    refine ⟨packLoop_step_none container rngF rngC samp fuel iter sampCount
      spheres front new_radius hf hp, ?_⟩
    intro hnd
    exact hnd.not_mem_erase

/-- Claim C3, witness: a concrete state with a non-empty front on which the
characterization applies (the no-success branch fires: the single front
member is retired). -/
theorem claim_C3_witness :
    ([seedA] ≠ []) ∧
    ((∀ p, first_success univContainer (curr_sphere_of rng0 0 [seedA])
        (set_v_of [seedA] (curr_sphere_of rng0 0 [seedA]) 1) 1 = some p →
      ∃ c, c ∈ identify_f (curr_sphere_of rng0 0 [seedA]) p.1 p.2 univContainer
          (set_v_of [seedA] (curr_sphere_of rng0 0 [seedA]) 1) 1 ∧
        packLoop univContainer rng0 rng0 sampSeed 1 0 0 [seedA] [seedA] 1 =
          packLoop univContainer rng0 rng0 sampSeed 0 1 1
            ([seedA] ++ [c]) ([seedA] ++ [c]) (sampSeed 0) ∧
        curr_sphere_of rng0 0 [seedA] ∈ [seedA] ++ [c] ∧
        (PackInv univContainer [seedA] [seedA] → 0 < (1 : ℝ) →
          c ∉ [seedA])) ∧
    (first_success univContainer (curr_sphere_of rng0 0 [seedA])
        (set_v_of [seedA] (curr_sphere_of rng0 0 [seedA]) 1) 1 = none →
      packLoop univContainer rng0 rng0 sampSeed 1 0 0 [seedA] [seedA] 1 =
        packLoop univContainer rng0 rng0 sampSeed 0 1 0 [seedA]
          ([seedA].erase (curr_sphere_of rng0 0 [seedA])) 1 ∧
      ([seedA].Nodup → curr_sphere_of rng0 0 [seedA] ∉
        [seedA].erase (curr_sphere_of rng0 0 [seedA])))) :=
  ⟨by simp, claim_C3 univContainer rng0 rng0 sampSeed 0 0 0 [seedA] [seedA] 1
    (by simp)⟩

/-!
## Claim C2: behaviour of the tangent-sphere solver
-/

theorem norm_eval {v : Vec3} {d : ℝ} (hd : 0 ≤ d) (h : v.normSq = d ^ 2) :
    v.norm = d := by
  unfold Vec3.norm
  rw [h]
  exact Real.sqrt_sq hd

/-- Claim C2 (amended): `identify_f` evaluates and filters the two candidate
centers only when the discriminant is *strictly* positive (and the geometry
is nondegenerate); for a zero or negative discriminant — and for a zero
cross product — the result is empty.  Each returned sphere passed the
containment and overlap filters and carries the requested radius; the
positive (larger) root's candidate is emitted first; the result has at most
two elements. -/
theorem claim_C2 (s_1 s_2 s_3 : Sphere) (container : Container)
    (set_v : List Sphere) (radius : ℝ) :
    (discrim s_1 s_2 s_3 radius ≤ 0 →
      identify_f s_1 s_2 s_3 container set_v radius = []) ∧
    (cross_uv s_1 s_2 s_3 = 0 →
      identify_f s_1 s_2 s_3 container set_v radius = []) ∧
    (cross_uv s_1 s_2 s_3 ≠ 0 → 0 < discrim s_1 s_2 s_3 radius →
      identify_f s_1 s_2 s_3 container set_v radius =
        (if accepted container set_v (s_4_positive s_1 s_2 s_3 radius) then
          [s_4_positive s_1 s_2 s_3 radius] else []) ++
        (if accepted container set_v (s_4_negative s_1 s_2 s_3 radius) then
          [s_4_negative s_1 s_2 s_3 radius] else []) ∧
      gamma_neg s_1 s_2 s_3 radius ≤ gamma_pos s_1 s_2 s_3 radius) ∧
    (∀ c ∈ identify_f s_1 s_2 s_3 container set_v radius,
      container.contains c ∧ (∀ v ∈ set_v, ¬ v.overlaps c) ∧
        c.radius = radius) ∧
    (identify_f s_1 s_2 s_3 container set_v radius).length ≤ 2 := by
  refine ⟨?_, ?_, ?_, ?_, ?_⟩
  · intro hd
    unfold discrim at hd
    unfold identify_f
    by_cases hcr : cross_uv s_1 s_2 s_3 = 0
    · rw [if_pos hcr]
    · rw [if_neg hcr, if_neg (by linarith)]
  · intro hcr
    unfold identify_f
    rw [if_pos hcr]
  · intro hcr hd
    unfold discrim at hd
    constructor
    · unfold identify_f
      rw [if_neg hcr, if_pos (by linarith)]
    · unfold gamma_pos gamma_neg
      have := Real.sqrt_nonneg (dot_wt s_1 s_2 s_3 ^ 2 -
        4 * value_d s_1 s_2 s_3 radius)
      nlinarith
  · intro c hc
    obtain ⟨h1, h2, h3, -⟩ := mem_identify_f hc
    exact ⟨h1, h2, h3⟩
  · unfold identify_f
    split_ifs <;> simp

/-- The seven exact quantities of the zero-discriminant configuration. -/
theorem cx_dot_wt : dot_wt cxS1 cxS2 cxS3 = 0 := by
  have hcr : cross_uv cxS1 cxS2 cxS3 = ⟨0, 0, 1200⟩ := by
    unfold cross_uv vector_u vector_v Vec3.cross cxS1 cxS2 cxS3
    norm_num
  have hnormlit : (⟨0, 0, 1200⟩ : Vec3).norm = 1200 :=
    norm_eval (by norm_num) (by norm_num [Vec3.normSq])
  unfold dot_wt unitvector_t vector_w Vec3.dot
  rw [hcr, hnormlit]
  norm_num [cxS1]

theorem cx_value_d : value_d cxS1 cxS2 cxS3 1 = 0 := by
  have hnu : (vector_u cxS1 cxS2).norm = 50 :=
    norm_eval (by norm_num) (by norm_num [vector_u, cxS1, cxS2, Vec3.normSq])
  have hnv : (vector_v cxS1 cxS3).norm = 30 :=
    norm_eval (by norm_num) (by norm_num [vector_v, cxS1, cxS3, Vec3.normSq])
  have ha : distance_a cxS1 cxS2 1 = 0 := by
    unfold distance_a distance_24 distance_14
    rw [hnu]
    norm_num [cxS1, cxS2]
  have hb : distance_b cxS1 cxS3 1 = 0 := by
    unfold distance_b distance_34 distance_14
    rw [hnv]
    norm_num [cxS1, cxS3]
  have halpha : alpha cxS1 cxS2 cxS3 1 = 0 := by
    unfold alpha
    rw [ha, hb]
    simp
  have hbeta : beta cxS1 cxS2 cxS3 1 = 0 := by
    unfold beta
    rw [ha, hb]
    simp
  have hdc : distance_c cxS1 1 = 0 := by
    unfold distance_c distance_14
    norm_num [cxS1]
  unfold value_d
  rw [halpha, hbeta, hdc]
  ring

theorem cx_cross_ne : cross_uv cxS1 cxS2 cxS3 ≠ 0 := by
  have hcr : cross_uv cxS1 cxS2 cxS3 = ⟨0, 0, 1200⟩ := by
    unfold cross_uv vector_u vector_v Vec3.cross cxS1 cxS2 cxS3
    norm_num
  rw [hcr]
  intro h
  rw [Vec3.zero_def] at h
  have := congrArg Vec3.z h
  norm_num at this

/-- Claim C2, counterexample to the claim as stated: three spheres of radius
24 centered at `(0,25,0)`, `(0,-25,0)`, `(24,7,0)` with candidate radius 1.
The discriminant is exactly zero — both roots of the quadratic are real
(one double root, the candidate sphere at the origin) — yet the source
returns the empty list because its branch requires a *strictly* positive
discriminant, while the spec's procedure ("evaluate both roots when real",
empty only for a *negative* discriminant) accepts the candidate and returns
a non-empty list. -/
theorem claim_C2_counterexample :
    discrim cxS1 cxS2 cxS3 1 = 0 ∧
    identify_f cxS1 cxS2 cxS3 univContainer [] 1 = [] ∧
    identify_f_per_spec cxS1 cxS2 cxS3 univContainer [] 1 ≠ [] := by
  have hd : discrim cxS1 cxS2 cxS3 1 = 0 := by
    unfold discrim
    rw [cx_dot_wt, cx_value_d]
    norm_num
  refine ⟨hd, ?_, ?_⟩
  · unfold identify_f
    rw [if_neg cx_cross_ne, if_neg (by rw [cx_dot_wt, cx_value_d]; norm_num)]
  · unfold identify_f_per_spec
    rw [if_neg cx_cross_ne,
      if_pos (show dot_wt cxS1 cxS2 cxS3 ^ 2 ≥ 4 * value_d cxS1 cxS2 cxS3 1 by
        rw [cx_dot_wt, cx_value_d]; norm_num)]
    rw [if_pos ⟨trivial, by simp⟩, if_pos ⟨trivial, by simp⟩]
    simp

/-- Claim C2, witness: at a degenerate input (collinear reference centers,
`cross_uv = 0`) the characterization yields the empty result. -/
theorem claim_C2_witness :
    cross_uv colA colB colC = 0 ∧
    identify_f colA colB colC univContainer [] 1 = [] := by
  have hcr : cross_uv colA colB colC = 0 := by
    unfold cross_uv vector_u vector_v Vec3.cross colA colB colC
    rw [Vec3.zero_def]
    norm_num
  exact ⟨hcr, (claim_C2 colA colB colC univContainer [] 1).2.1 hcr⟩

/-!
## Claims C10 and C7
-/

/-- Claim C10: `PackedVolume::from_vec` stores the given sphere sequence and
container verbatim and performs no validation whatsoever; the analysis
queries then operate on exactly the supplied list (shown here for
`volume_fraction`, whose value is the plain formula over the given
spheres). -/
theorem claim_C10 (spheres : List Sphere) (container : Container) :
    (PackedVolume.from_vec spheres container).spheres = spheres ∧
    (PackedVolume.from_vec spheres container).container = container ∧
    (PackedVolume.from_vec spheres container).volume_fraction =
      (spheres.map Sphere.volume).sum / container.volume :=
  ⟨rfl, rfl, rfl⟩

/-- Claim C7 (amended): the sphere at index `idx` is excluded from its own
contact list precisely when `2·radius ≥ 0.001` — the distance to itself is
0, so the contact predicate against itself reads `|0 − 2r| < 0.001`.  (For
positive radii below `0.0005` the sphere is in contact with itself; see the
counterexample.) -/
theorem claim_C7 (pv : PackedVolume) (idx : ℕ)
    (h : (0.001 : ℝ) ≤ 2 * (pv.spheres.getD idx default).radius) :
    pv.spheres.getD idx default ∉ pv.sphere_contacts idx := by
  intro hmem
  unfold PackedVolume.sphere_contacts at hmem
  obtain ⟨-, hpred⟩ := (mem_filterP _ _ _).mp hmem
  unfold PackedVolume.contactPred at hpred
  rw [dist_self_eq_zero, abs_lt] at hpred
  obtain ⟨hlo, -⟩ := hpred
  norm_num at hlo h
  linarith

/-- Claim C7, witness: a radius-`1/2` sphere is not listed among its own
contacts. -/
theorem claim_C7_witness :
    ((0.001 : ℝ) ≤ 2 * ((pvTwo.spheres.getD 0 default).radius)) ∧
    pvTwo.spheres.getD 0 default ∉ pvTwo.sphere_contacts 0 :=
  ⟨by norm_num [pvTwo, contactA, List.getD],
    claim_C7 pvTwo 0 (by norm_num [pvTwo, contactA, List.getD])⟩

/-- Claim C7, counterexample to the claim as stated: the sphere of radius
`0.0004 > 0` *does* satisfy the contact predicate against itself
(`|0 − 0.0008| < 0.001`), so it appears in its own contact list and
`contact_count` counts it — self-exclusion is not automatic for every
positive radius. -/
theorem claim_C7_counterexample :
    (0 : ℝ) < tinySphere.radius ∧
    PackedVolume.sphere_contacts ⟨[tinySphere], univContainer⟩ 0 =
      [tinySphere] ∧
    PackedVolume.sphere_contacts_count ⟨[tinySphere], univContainer⟩ 0 = 1 := by
  have hpred : PackedVolume.contactPred tinySphere.center tinySphere.radius
      tinySphere := by
    unfold PackedVolume.contactPred
    rw [dist_self_eq_zero, abs_lt]
    constructor <;> norm_num [tinySphere]
  have hfil : filterP (PackedVolume.contactPred tinySphere.center
      tinySphere.radius) [tinySphere] = [tinySphere] := by
    rw [filterP_cons, if_pos hpred, filterP_nil]
  refine ⟨by norm_num [tinySphere], ?_, ?_⟩
  · show filterP (PackedVolume.contactPred tinySphere.center
      tinySphere.radius) [tinySphere] = [tinySphere]
    exact hfil
  · show (filterP (PackedVolume.contactPred tinySphere.center
      tinySphere.radius) [tinySphere]).length = 1
    rw [hfil]
    rfl

/-!
## Claim C6: the pair enumerator
-/

theorem filterP_append {α : Type} (p : α → Prop) (l1 l2 : List α) :
    filterP p (l1 ++ l2) = filterP p l1 ++ filterP p l2 := by
  induction l1 with
  | nil => simp
  | cons a t ih =>
    rw [List.cons_append, filterP_cons, filterP_cons]
    by_cases hp : p a
    · rw [if_pos hp, if_pos hp, ih, List.cons_append]
    · rw [if_neg hp, if_neg hp, ih]

theorem filterP_map {α β : Type} (p : β → Prop) (f : α → β) (l : List α) :
    filterP p (l.map f) = (filterP (fun a => p (f a)) l).map f := by
  induction l with
  | nil => simp
  | cons a t ih =>
    rw [List.map_cons, filterP_cons, filterP_cons]
    by_cases hp : p (f a)
    · rw [if_pos hp, if_pos hp, List.map_cons, ih]
    · rw [if_neg hp, if_neg hp, ih]

theorem filterP_eq_nil {α : Type} {p : α → Prop} {l : List α}
    (h : ∀ a ∈ l, ¬ p a) : filterP p l = [] := by
  induction l with
  | nil => rfl
  | cons a t ih =>
    rw [filterP_cons, if_neg (h a (List.mem_cons_self a t))]
    exact ih fun b hb => h b (List.mem_cons_of_mem _ hb)

theorem filterP_congr {α : Type} {p q : α → Prop} {l : List α}
    (h : ∀ a ∈ l, p a ↔ q a) : filterP p l = filterP q l := by
  induction l with
  | nil => rfl
  | cons a t ih =>
    rw [filterP_cons, filterP_cons]
    have ih2 := ih fun b hb => h b (List.mem_cons_of_mem _ hb)
    by_cases hp : p a
    · rw [if_pos hp, if_pos ((h a (List.mem_cons_self a t)).mp hp), ih2]
    · rw [if_neg hp,
        if_neg (fun hq => hp ((h a (List.mem_cons_self a t)).mpr hq)), ih2]

theorem filterP_count_single {l : List Sphere} (hl : l.Nodup) (b : Sphere) :
    (filterP (fun s => s = b) l).length = if b ∈ l then 1 else 0 := by
  induction l with
  | nil => simp
  | cons c t ih =>
    obtain ⟨hct, htd⟩ := List.nodup_cons.mp hl
    rw [filterP_cons]
    by_cases hcb : c = b
    · rw [if_pos hcb]
      have hnil : filterP (fun s => s = b) t = [] :=
        filterP_eq_nil (fun x hx hxb => hct (by rw [hcb, ← hxb]; exact hx))
      rw [hnil, if_pos (List.mem_cons.mpr (Or.inl hcb.symm))]
      rfl
    · rw [if_neg hcb, ih htd]
      have : (b ∈ c :: t) ↔ b ∈ t := by
        rw [List.mem_cons]
        constructor
        · rintro (rfl | h)
          · exact absurd rfl hcb
          · exact h
        · exact Or.inr
      rw [if_congr this rfl rfl]

theorem pairsG_cons (a : Sphere) (t : List Sphere) :
    pairsG (a :: t) = (t.map fun s => (s, a)) ++ pairsG t := rfl

/-- Twice the number of pairs plus the list length is the squared length. -/
theorem pairsG_length (l : List Sphere) :
    2 * (pairsG l).length + l.length = l.length * l.length := by
  induction l with
  | nil => simp [pairsG]
  | cons a t ih =>
    rw [pairsG_cons, List.length_append, List.length_map, List.length_cons]
    have h2 : (t.length + 1) * (t.length + 1) =
        t.length * t.length + 2 * t.length + 1 := by ring
    rw [h2]
    linarith

theorem pairsG_no_self {l : List Sphere} (h : l.Nodup) (a : Sphere) :
    (a, a) ∉ pairsG l := by
  induction l with
  | nil => simp [pairsG]
  | cons c t ih =>
    obtain ⟨hct, htd⟩ := List.nodup_cons.mp h
    rw [pairsG_cons]
    intro hmem
    rcases List.mem_append.mp hmem with hm | hm
    · rw [List.mem_map] at hm
      obtain ⟨s, hst, heq⟩ := hm
      have h1 : s = a := congrArg Prod.fst heq
      have h2 : c = a := congrArg Prod.snd heq
      exact hct (h2 ▸ h1 ▸ hst)
    · exact ih htd hm

/-- Under distinct elements, every unordered pair of distinct members occurs
exactly once in `pairsG` (in exactly one orientation), and pairs of
non-members never occur. -/
theorem pairsG_count {l : List Sphere} (h : l.Nodup) (a b : Sphere)
    (hab : a ≠ b) :
    (filterP (fun q => q = (a, b) ∨ q = (b, a)) (pairsG l)).length =
      if a ∈ l ∧ b ∈ l then 1 else 0 := by
  induction l with
  | nil => simp [pairsG]
  | cons c t ih =>
    obtain ⟨hct, htd⟩ := List.nodup_cons.mp h
    rw [pairsG_cons, filterP_append, List.length_append, ih htd, filterP_map,
      List.length_map]
    by_cases hac : a = c
    · subst hac
      have hcong : ∀ s ∈ t, ((s, a) = (a, b) ∨ (s, a) = (b, a)) ↔ s = b := by
        intro s hs
        constructor
        · rintro (heq | heq)
          · exact absurd (congrArg Prod.snd heq) hab
          · exact congrArg Prod.fst heq
        · rintro rfl
          exact Or.inr rfl
      rw [filterP_congr hcong, filterP_count_single htd]
      have hnotat : ¬ (a ∈ t ∧ b ∈ t) := fun hc => hct hc.1
      rw [if_neg hnotat]
      have hmema : a ∈ a :: t := List.mem_cons_self _ _
      by_cases hbt : b ∈ t
      · rw [if_pos hbt, if_pos ⟨hmema, List.mem_cons_of_mem _ hbt⟩]
      · rw [if_neg hbt, if_neg ?_]
        rintro ⟨-, hbmem⟩
        rcases List.mem_cons.mp hbmem with heq | hbt2
        · exact hab heq.symm
        · exact hbt hbt2
    · by_cases hbc : b = c
      · subst hbc
        have hcong : ∀ s ∈ t, ((s, b) = (a, b) ∨ (s, b) = (b, a)) ↔ s = a := by
          intro s hs
          constructor
          · rintro (heq | heq)
            · exact congrArg Prod.fst heq
            · exact absurd (congrArg Prod.snd heq) (Ne.symm hab)
          · rintro rfl
            exact Or.inl rfl
        rw [filterP_congr hcong, filterP_count_single htd]
        have hnotbt : ¬ (a ∈ t ∧ b ∈ t) := fun hc => hct hc.2
        rw [if_neg hnotbt]
        have hmemb : b ∈ b :: t := List.mem_cons_self _ _
        by_cases hat : a ∈ t
        · rw [if_pos hat, if_pos ⟨List.mem_cons_of_mem _ hat, hmemb⟩]
        · rw [if_neg hat, if_neg ?_]
          rintro ⟨hamem, -⟩
          rcases List.mem_cons.mp hamem with heq | hat2
          · exact hab heq
          · exact hat hat2
      · have hcong : ∀ s ∈ t, ((s, c) = (a, b) ∨ (s, c) = (b, a)) ↔ False := by
          intro s hs
          constructor
          · rintro (heq | heq)
            · exact hbc (congrArg Prod.snd heq).symm
            · exact hac (congrArg Prod.snd heq).symm
          · exact False.elim
        rw [filterP_congr hcong, filterP_eq_nil (fun q hq hfalse => hfalse)]
        have hmem : (a ∈ c :: t ∧ b ∈ c :: t) ↔ (a ∈ t ∧ b ∈ t) := by
          rw [List.mem_cons, List.mem_cons]
          constructor
          · rintro ⟨ha | ha, hb | hb⟩
            · exact absurd ha hac
            · exact absurd ha hac
            · exact absurd hb hbc
            · exact ⟨ha, hb⟩
          · rintro ⟨ha, hb⟩
            exact ⟨Or.inr ha, Or.inr hb⟩
        rw [if_congr hmem rfl rfl]
        simp

/-- The `n > 2` branch of `pairs` equals the recursive reformulation. -/
theorem pairs_general_eq (l : List Sphere) :
    (List.range (l.length - 1)).flatMap
      (fun k => (l.drop (k + 1)).map (fun s => (s, l.getD k default))) =
      pairsG l := by
  induction l with
  | nil => simp [pairsG]
  | cons a t ih =>
    cases t with
    | nil => simp [pairsG]
    | cons b t2 =>
      have hlen : (a :: b :: t2).length - 1 = t2.length + 1 := by simp
      rw [hlen, List.range_succ_eq_map, List.flatMap_cons, List.flatMap_map]
      have hzero : ((a :: b :: t2).drop 1).map
          (fun s => (s, (a :: b :: t2).getD 0 default)) =
          (b :: t2).map (fun s => (s, a)) := rfl
      have hsucc : (fun k => ((a :: b :: t2).drop (k + 1 + 1)).map
            (fun s => (s, (a :: b :: t2).getD (k + 1) default))) =
          (fun k => ((b :: t2).drop (k + 1)).map
            (fun s => (s, (b :: t2).getD k default))) := by
        funext k
        rfl
      rw [hzero, pairsG_cons]
      have hlen2 : t2.length + 1 - 1 = t2.length := by omega
      have ih2 := ih
      rw [show (b :: t2).length - 1 = t2.length by simp] at ih2
      rw [show ((List.range t2.length).flatMap fun k =>
          ((a :: b :: t2).drop (k + 1 + 1)).map
            (fun s => (s, (a :: b :: t2).getD (k + 1) default))) =
          ((List.range t2.length).flatMap fun k =>
          ((b :: t2).drop (k + 1)).map
            (fun s => (s, (b :: t2).getD k default))) from by rw [hsucc]]
      rw [ih2]

theorem pairs_eq_pairsG (l : List Sphere) (h : l.length ≠ 2) :
    pairs l = pairsG l := by
  unfold pairs
  rw [if_neg h]
  by_cases h3 : 2 < l.length
  · rw [if_pos h3]
    exact pairs_general_eq l
  · rw [if_neg h3]
    match l with
    | [] => rfl
    | [a] => rfl
    | a :: b :: t =>
      exfalso
      simp only [List.length_cons] at h h3
      omega

/-- Claim C6: the pair enumerator returns no pairs for fewer than two
elements; exactly `n(n-1)/2` pairs for `n ≥ 2` (hence exactly one pair for
`n = 2`); and — for a duplicate-free input — never a self-pair, and each
unordered pair of distinct members exactly once (in exactly one
orientation).  Emission order is deterministic because `pairs` is a pure
function of the input list. -/
theorem claim_C6 (set : List Sphere) :
    ((set.length < 2 → pairs set = []) ∧
     (2 ≤ set.length →
       (pairs set).length = set.length * (set.length - 1) / 2)) ∧
    (set.Nodup →
      (∀ a, (a, a) ∉ pairs set) ∧
      (∀ a b, a ≠ b →
        (filterP (fun q => q = (a, b) ∨ q = (b, a)) (pairs set)).length =
          if a ∈ set ∧ b ∈ set then 1 else 0)) := by
  have hlen2 : ∀ (l : List Sphere),
      l.length * (l.length - 1) = 2 * (pairsG l).length := by
    intro l
    have h1 := pairsG_length l
    have h2 : l.length * (l.length - 1) + l.length = l.length * l.length := by
      cases l with
      | nil => simp
      | cons a t =>
        rw [List.length_cons, Nat.succ_sub_one]
        ring
    linarith
  constructor
  · constructor
    · intro hlt
      unfold pairs
      rw [if_neg (by omega), if_neg (by omega)]
    · intro hge
      by_cases h2 : set.length = 2
      · match set, h2 with
        | [a0, b0], _ => simp [pairs]
      · rw [pairs_eq_pairsG set h2]
        have := hlen2 set
        omega
  · intro hnd
    constructor
    · intro a
      by_cases h2 : set.length = 2
      · match set, h2 with
        | [a0, b0], _ =>
          have hne : a0 ≠ b0 := by
            have := List.nodup_cons.mp hnd
            simpa using this.1
          intro hmem
          have : (a, a) = (a0, b0) := by simpa [pairs] using hmem
          have h1 : a = a0 := congrArg Prod.fst this
          have h2 : a = b0 := congrArg Prod.snd this
          exact hne (h1 ▸ h2)
      · rw [pairs_eq_pairsG set h2]
        exact pairsG_no_self hnd a
    · intro a b hab
      by_cases h2 : set.length = 2
      · match set, h2 with
        | [a0, b0], _ =>
          have hne : a0 ≠ b0 := by
            have := List.nodup_cons.mp hnd
            simpa using this.1
          show (filterP (fun q => q = (a, b) ∨ q = (b, a))
            [(a0, b0)]).length = _
          rw [filterP_cons]
          by_cases hp : ((a0, b0) : Sphere × Sphere) = (a, b) ∨
              ((a0, b0) : Sphere × Sphere) = (b, a)
          · rw [if_pos hp, filterP_nil]
            rcases hp with heq | heq
            · have h1 : a0 = a := congrArg Prod.fst heq
              have h2 : b0 = b := congrArg Prod.snd heq
              subst h1; subst h2
              rw [if_pos ⟨by simp, by simp⟩]
              rfl
            · have h1 : a0 = b := congrArg Prod.fst heq
              have h2 : b0 = a := congrArg Prod.snd heq
              subst h1; subst h2
              rw [if_pos ⟨by simp, by simp⟩]
              rfl
          · rw [if_neg hp, filterP_nil]
            rw [if_neg ?_]
            · rfl
            rintro ⟨hamem, hbmem⟩
            apply hp
            rcases List.mem_cons.mp hamem with ha | ha
            · rcases List.mem_cons.mp hbmem with hb | hb
              · exact absurd (ha.trans hb.symm) hab
              · have hb2 : b = b0 := by simpa using hb
                exact Or.inl (by rw [ha, hb2])
            · have ha2 : a = b0 := by simpa using ha
              rcases List.mem_cons.mp hbmem with hb | hb
              · exact Or.inr (by rw [ha2, hb])
              · have hb2 : b = b0 := by simpa using hb
                exact absurd (ha2.trans hb2.symm) hab
      · rw [pairs_eq_pairsG set h2]
        exact pairsG_count hnd a b hab

/-- Claim C6, witness: for the three (distinct) seed spheres the enumerator
produces exactly `3·2/2 = 3` pairs and the unordered pair `(seedA, seedB)`
occurs exactly once. -/
theorem claim_C6_witness :
    (2 ≤ ([seedA, seedB, seedC] : List Sphere).length) ∧
    (pairs [seedA, seedB, seedC]).length =
      ([seedA, seedB, seedC] : List Sphere).length *
        (([seedA, seedB, seedC] : List Sphere).length - 1) / 2 :=
  ⟨by simp, ((claim_C6 [seedA, seedB, seedC]).1.2 (by simp))⟩

/-!
## Claim C8: the fabric-tensor trace
-/

theorem sum_fin3_list (l : List Sphere) (g : Fin 3 → Sphere → ℝ) :
    (∑ i : Fin 3, (l.map (g i)).sum) = (l.map (fun c => ∑ i : Fin 3, g i c)).sum := by
  induction l with
  | nil => simp
  | cons a t ih =>
    simp only [List.map_cons, List.sum_cons]
    rw [Finset.sum_add_distrib, ih]

/-- The diagonal contribution of a normalised direction vector sums to 1. -/
theorem sum_nth_sq_unit {v : Vec3} (h : v ≠ 0) :
    (∑ i : Fin 3, (v / v.norm).nth i * (v / v.norm).nth i) = 1 := by
  rw [Fin.sum_univ_three]
  have hn := Vec3.normSq_div_norm h
  unfold Vec3.normSq at hn
  have e0 : (v / v.norm).nth 0 = (v / v.norm).x := rfl
  have e1 : (v / v.norm).nth 1 = (v / v.norm).y := rfl
  have e2 : (v / v.norm).nth 2 = (v / v.norm).z := rfl
  rw [e0, e1, e2]
  linear_combination hn

theorem sum_map_one (l : List Sphere) : (l.map (fun _ => (1 : ℝ))).sum = l.length := by
  induction l with
  | nil => simp
  | cons a t ih =>
    simp only [List.map_cons, List.sum_cons, List.length_cons, ih]
    push_cast
    ring

/-- Per-sphere diagonal block of the fabric tensor: with at least one
contact and nonzero cross products, the normalised directions each
contribute 1, so the block sums to `m/m = 1`. -/
theorem fabric_diag_sum (P : Vec3) (l : List Sphere)
    (hl : l ≠ []) (hc : ∀ c ∈ l, Vec3.cross P c.center ≠ 0) :
    (∑ i : Fin 3, ((l.map (fun c =>
        (Vec3.cross P c.center / (Vec3.cross P c.center).norm).nth i *
        (Vec3.cross P c.center / (Vec3.cross P c.center).norm).nth i)).sum /
      (l.length : ℝ))) = 1 := by
  rw [← Finset.sum_div, sum_fin3_list]
  have hmap : l.map (fun c => ∑ i : Fin 3,
      (Vec3.cross P c.center / (Vec3.cross P c.center).norm).nth i *
      (Vec3.cross P c.center / (Vec3.cross P c.center).norm).nth i) =
      l.map (fun _ => (1 : ℝ)) := by
    apply List.map_congr_left
    intro c hcmem
    exact sum_nth_sq_unit (hc c hcmem)
  rw [hmap, sum_map_one]
  exact div_self (Nat.cast_ne_zero.mpr ((List.length_pos.mpr hl).ne'))

/-- Claim C8 (amended): the trace of the fabric tensor is exactly 1 for any
packing in which every sphere has at least one contact and every contact
direction vector (the cross product of the two center position vectors, as
the source computes it) is nonzero. -/
theorem claim_C8 (pv : PackedVolume)
    (hne : pv.spheres ≠ [])
    (hcontacts : ∀ idx < pv.spheres.length, pv.sphere_contacts idx ≠ [])
    (hcross : ∀ idx < pv.spheres.length, ∀ c ∈ pv.sphere_contacts idx,
      Vec3.cross (pv.spheres.getD idx default).center c.center ≠ 0) :
    Matrix.trace pv.fabric_tensor = 1 := by
  have hNr : ((pv.spheres.length : ℕ) : ℝ) ≠ 0 :=
    Nat.cast_ne_zero.mpr (List.length_pos.mpr hne).ne'
  unfold PackedVolume.fabric_tensor
  rw [Matrix.trace]
  simp only [Matrix.diag, Matrix.of_apply]
  rw [← Finset.mul_sum, Finset.sum_comm]
  rw [Finset.sum_congr rfl (fun idx hidx => fabric_diag_sum
      (pv.spheres.getD idx default).center (pv.sphere_contacts idx)
      (hcontacts idx (Finset.mem_range.mp hidx))
      (hcross idx (Finset.mem_range.mp hidx)))]
  rw [Finset.sum_const, Finset.card_range, nsmul_eq_mul, mul_one, one_div]
  exact inv_mul_cancel₀ hNr

theorem dist_contactAB : Vec3.dist contactA.center contactB.center = 1 := by
  apply Vec3.dist_eq_of_normSq_eq (by norm_num)
  norm_num [contactA, contactB, Vec3.normSq]

theorem dist_contactBA : Vec3.dist contactB.center contactA.center = 1 := by
  rw [Vec3.dist_comm]
  exact dist_contactAB

/-- The contact lists of the two-sphere packing. -/
theorem pvTwo_contacts_zero : pvTwo.sphere_contacts 0 = [contactB] := by
  have hpAA : ¬ PackedVolume.contactPred contactA.center contactA.radius
      contactA := by
    unfold PackedVolume.contactPred
    rw [dist_self_eq_zero, abs_lt]
    rintro ⟨hlo, -⟩
    norm_num [contactA] at hlo
  have hpAB : PackedVolume.contactPred contactA.center contactA.radius
      contactB := by
    unfold PackedVolume.contactPred
    rw [dist_contactAB, abs_lt]
    constructor <;> norm_num [contactA, contactB]
  show filterP (PackedVolume.contactPred contactA.center contactA.radius)
    [contactA, contactB] = [contactB]
  rw [filterP_cons, if_neg hpAA, filterP_cons, if_pos hpAB, filterP_nil]

/-- See `pvTwo_contacts_zero`. -/
theorem pvTwo_contacts_one : pvTwo.sphere_contacts 1 = [contactA] := by
  have hpBA : PackedVolume.contactPred contactB.center contactB.radius
      contactA := by
    unfold PackedVolume.contactPred
    rw [dist_contactBA, abs_lt]
    constructor <;> norm_num [contactA, contactB]
  have hpBB : ¬ PackedVolume.contactPred contactB.center contactB.radius
      contactB := by
    unfold PackedVolume.contactPred
    rw [dist_self_eq_zero, abs_lt]
    rintro ⟨hlo, -⟩
    norm_num [contactB] at hlo
  show filterP (PackedVolume.contactPred contactB.center contactB.radius)
    [contactA, contactB] = [contactA]
  rw [filterP_cons, if_pos hpBA, filterP_cons, if_neg hpBB, filterP_nil]

theorem cross_contactAB : Vec3.cross contactA.center contactB.center = ⟨0, 1, 0⟩ := by
  unfold Vec3.cross contactA contactB
  norm_num

theorem cross_contactBA : Vec3.cross contactB.center contactA.center = ⟨0, -1, 0⟩ := by
  unfold Vec3.cross contactA contactB
  norm_num

/-- Claim C8, witness: in the two-sphere packing every sphere has exactly
one contact and both cross products are nonzero, so the trace is 1. -/
theorem claim_C8_witness :
    (pvTwo.spheres ≠ [] ∧
     (∀ idx < pvTwo.spheres.length, pvTwo.sphere_contacts idx ≠ []) ∧
     (∀ idx < pvTwo.spheres.length, ∀ c ∈ pvTwo.sphere_contacts idx,
       Vec3.cross (pvTwo.spheres.getD idx default).center c.center ≠ 0)) ∧
    Matrix.trace pvTwo.fabric_tensor = 1 := by
  have hlen : pvTwo.spheres.length = 2 := rfl
  have hcont : ∀ idx < pvTwo.spheres.length, pvTwo.sphere_contacts idx ≠ [] := by
    intro idx hidx
    rw [hlen] at hidx
    interval_cases idx
    · rw [pvTwo_contacts_zero]
      simp
    · rw [pvTwo_contacts_one]
      simp
  have hcr : ∀ idx < pvTwo.spheres.length, ∀ c ∈ pvTwo.sphere_contacts idx,
      Vec3.cross (pvTwo.spheres.getD idx default).center c.center ≠ 0 := by
    intro idx hidx c hc
    rw [hlen] at hidx
    interval_cases idx
    · rw [pvTwo_contacts_zero] at hc
      have hcB : c = contactB := by simpa using hc
      subst hcB
      show Vec3.cross contactA.center contactB.center ≠ 0
      rw [cross_contactAB, Vec3.zero_def]
      intro h
      have := congrArg Vec3.y h
      norm_num at this
    · rw [pvTwo_contacts_one] at hc
      have hcA : c = contactA := by simpa using hc
      subst hcA
      show Vec3.cross contactB.center contactA.center ≠ 0
      rw [cross_contactBA, Vec3.zero_def]
      intro h
      have := congrArg Vec3.y h
      norm_num at this
  exact ⟨⟨by simp [pvTwo], hcont, hcr⟩, claim_C8 pvTwo (by simp [pvTwo]) hcont hcr⟩

theorem dist_contactAC3 : Vec3.dist contactA.center isolatedC.center = 8 := by
  apply Vec3.dist_eq_of_normSq_eq (by norm_num)
  norm_num [contactA, isolatedC, Vec3.normSq]

theorem dist_BC3_ge : (8 : ℝ) ≤ Vec3.dist contactB.center isolatedC.center := by
  have hsq : Vec3.dist contactB.center isolatedC.center ^ 2 = 65 := by
    unfold Vec3.dist
    rw [Vec3.sq_norm]
    norm_num [contactB, isolatedC, Vec3.normSq]
  have hnn : 0 ≤ Vec3.dist contactB.center isolatedC.center :=
    Real.sqrt_nonneg _
  nlinarith [hsq, hnn]

theorem pvThree_contacts_zero : pvThree.sphere_contacts 0 = [contactB] := by
  have hpAA : ¬ PackedVolume.contactPred contactA.center contactA.radius
      contactA := by
    unfold PackedVolume.contactPred
    rw [dist_self_eq_zero, abs_lt]
    rintro ⟨hlo, -⟩
    norm_num [contactA] at hlo
  have hpAB : PackedVolume.contactPred contactA.center contactA.radius
      contactB := by
    unfold PackedVolume.contactPred
    rw [dist_contactAB, abs_lt]
    constructor <;> norm_num [contactA, contactB]
  have hpAC : ¬ PackedVolume.contactPred contactA.center contactA.radius
      isolatedC := by
    unfold PackedVolume.contactPred
    rw [dist_contactAC3, abs_lt]
    rintro ⟨-, hhi⟩
    norm_num [contactA, isolatedC] at hhi
  show filterP (PackedVolume.contactPred contactA.center contactA.radius)
    [contactA, contactB, isolatedC] = [contactB]
  rw [filterP_cons, if_neg hpAA, filterP_cons, if_pos hpAB, filterP_cons,
    if_neg hpAC, filterP_nil]

theorem pvThree_contacts_one : pvThree.sphere_contacts 1 = [contactA] := by
  have hpBA : PackedVolume.contactPred contactB.center contactB.radius
      contactA := by
    unfold PackedVolume.contactPred
    rw [dist_contactBA, abs_lt]
    constructor <;> norm_num [contactA, contactB]
  have hpBB : ¬ PackedVolume.contactPred contactB.center contactB.radius
      contactB := by
    unfold PackedVolume.contactPred
    rw [dist_self_eq_zero, abs_lt]
    rintro ⟨hlo, -⟩
    norm_num [contactB] at hlo
  have hpBC : ¬ PackedVolume.contactPred contactB.center contactB.radius
      isolatedC := by
    unfold PackedVolume.contactPred
    rw [abs_lt]
    rintro ⟨-, hhi⟩
    have hrad : contactB.radius + isolatedC.radius = 1 := by
      norm_num [contactB, isolatedC]
    rw [hrad] at hhi
    have h8 := dist_BC3_ge
    norm_num at hhi
    linarith
  show filterP (PackedVolume.contactPred contactB.center contactB.radius)
    [contactA, contactB, isolatedC] = [contactA]
  rw [filterP_cons, if_pos hpBA, filterP_cons, if_neg hpBB, filterP_cons,
    if_neg hpBC, filterP_nil]

theorem pvThree_contacts_two : pvThree.sphere_contacts 2 = [] := by
  have hpCA : ¬ PackedVolume.contactPred isolatedC.center isolatedC.radius
      contactA := by
    unfold PackedVolume.contactPred
    rw [Vec3.dist_comm, dist_contactAC3, abs_lt]
    rintro ⟨-, hhi⟩
    norm_num [contactA, isolatedC] at hhi
  have hpCB : ¬ PackedVolume.contactPred isolatedC.center isolatedC.radius
      contactB := by
    unfold PackedVolume.contactPred
    rw [Vec3.dist_comm, abs_lt]
    rintro ⟨-, hhi⟩
    have hrad : isolatedC.radius + contactB.radius = 1 := by
      norm_num [contactB, isolatedC]
    rw [hrad] at hhi
    have h8 := dist_BC3_ge
    norm_num at hhi
    linarith
  have hpCC : ¬ PackedVolume.contactPred isolatedC.center isolatedC.radius
      isolatedC := by
    unfold PackedVolume.contactPred
    rw [dist_self_eq_zero, abs_lt]
    rintro ⟨hlo, -⟩
    norm_num [isolatedC] at hlo
  show filterP (PackedVolume.contactPred isolatedC.center isolatedC.radius)
    [contactA, contactB, isolatedC] = []
  rw [filterP_cons, if_neg hpCA, filterP_cons, if_neg hpCB, filterP_cons,
    if_neg hpCC, filterP_nil]

/-- Claim C8, counterexample to the claim as stated: `pvThree` has a contact
(two touching spheres) but also an isolated sphere with no contacts; its
per-sphere term divides zero by zero (the `f32` source produces NaN there —
the exact model's convention `0/0 = 0` makes the sphere contribute nothing),
and the trace evaluates to `2/3`, not 1. -/
theorem claim_C8_counterexample :
    pvThree.sphere_contacts 0 ≠ [] ∧
    Matrix.trace pvThree.fabric_tensor = 2 / 3 := by
  constructor
  · rw [pvThree_contacts_zero]
    simp
  · have hg0 : pvThree.spheres.getD 0 default = contactA := rfl
    have hg1 : pvThree.spheres.getD 1 default = contactB := rfl
    have hg2 : pvThree.spheres.getD 2 default = isolatedC := rfl
    have hlen : pvThree.spheres.length = 3 := rfl
    have hn010 : (⟨0, 1, 0⟩ : Vec3).norm = 1 :=
      norm_eval (by norm_num) (by norm_num [Vec3.normSq])
    have hn0m10 : (⟨0, -1, 0⟩ : Vec3).norm = 1 :=
      norm_eval (by norm_num) (by norm_num [Vec3.normSq])
    unfold PackedVolume.fabric_tensor
    rw [Matrix.trace]
    simp only [Matrix.diag, Matrix.of_apply]
    rw [hlen, Fin.sum_univ_three]
    simp only [Finset.sum_range_succ, Finset.sum_range_zero]
    rw [pvThree_contacts_zero, pvThree_contacts_one, pvThree_contacts_two,
      hg0, hg1, hg2]
    simp only [List.map_cons, List.map_nil, List.sum_cons, List.sum_nil]
    rw [cross_contactAB, cross_contactBA, hn010, hn0m10]
    simp [Vec3.nth, Vec3.div_def]
    norm_num

end SphericalCow
